import Mathlib

/-!
Shallow embedding of the crawl-normalize-persist pipeline of
`src/scripts/crawler.py` (class `NanaLiveAnalyzer`), together with proofs of
the specification claims about it.

Conventions of the embedding:
* machine strings are Lean `String`s; per-character work is done on `List Char`;
* Python `None`-able values become `Option`;
* the relational store is a record of finite maps (functions into `Option`),
  one per table, keyed by the unique constraint of the table, plus the serial
  id counters;
* database faults (a statement or a commit raising) are injected through
  explicit boolean fault parameters; a raised statement rolls the transaction
  back, which in this embedding means the pre-call store is returned;
* `requests`/BeautifulSoup results are modelled as already-parsed structured
  values (`Table`, `Cell`, `Anchor`), and a fetch is a function into
  `Except Unit _` so that a fetch/parse exception is an `Except.error`.
-/

namespace Crawler

/-- A calendar date as produced by `datetime.date`. -/
structure Date where
  year : Nat
  month : Nat
  day : Nat
deriving DecidableEq, Repr

/-- An `<a>` element inside a table cell: its `href` attribute and its
stripped visible text.  A missing or empty `href` attribute is modelled as
`href = ""` (both are falsy in the Python source). -/
structure Anchor where
  href : String
  text : String
deriving DecidableEq, Repr

/-- A `<td>` cell: its stripped text and the first `<a>` inside it, if any. -/
structure Cell where
  text : String
  anchor : Option Anchor
deriving DecidableEq, Repr

/-- One `<table class="table-fixed">`: the texts of all its `<th>` elements and
its `<tr>` rows (header row included, as `find_all('tr')` returns it). -/
structure Table where
  headers : List String
  trs : List (List Cell)
deriving DecidableEq, Repr

/-! ## Date parsing (`NanaLiveAnalyzer.parse_date`)

`parse_date` first tries `datetime.strptime` with the three formats
`%Y-%m-%d`, `%Y年%m月%d日`, `%Y/%m/%d` on the stripped string, then falls back
to `re.search(r'(\d{4})[^\d]*(\d{1,2})[^\d]*(\d{1,2})', date_str)` on the raw
string; any remaining failure yields `None`.  CPython's `_strptime` compiles
`%Y` to four digits, `%m` to `1[0-2]|0[1-9]|[1-9]` and `%d` to
`3[01]|[12]\d|0[1-9]|[1-9]`, requires the whole string to be consumed, and
`datetime(...)` validates the day against the month (raising `ValueError`,
which the source catches).  The embedding reproduces the alternation order and
the backtracking of those patterns. -/

/-- Numeric value of an ASCII digit character. -/
def digitVal (c : Char) : Nat := c.toNat - 48

/-- Python `str.strip()` whitespace (ASCII subset, which covers the inputs
the spec speaks about). -/
def isPySpace (c : Char) : Bool :=
  c = ' ' || c = '\t' || c = '\n' || c = '\r' || c = '\x0b' || c = '\x0c'

/-- Python `str.strip()`. -/
def pyStrip (cs : List Char) : List Char :=
  ((cs.dropWhile isPySpace).reverse.dropWhile isPySpace).reverse

/-- Match `\d\d\d\d` (the `%Y` pattern) at the start, returning the year value
and the remaining characters. -/
def takeDigits4 : List Char → Option (Nat × List Char)
  | c1 :: c2 :: c3 :: c4 :: rest =>
    if c1.isDigit && c2.isDigit && c3.isDigit && c4.isDigit then
      some (((digitVal c1 * 10 + digitVal c2) * 10 + digitVal c3) * 10 + digitVal c4, rest)
    else none
  | _ => none

/-- All ways the `%m` pattern `1[0-2]|0[1-9]|[1-9]` can match a prefix, in
regex alternation order (the order backtracking explores them). -/
def monthParses : List Char → List (Nat × List Char)
  | c1 :: c2 :: rest =>
    (if c1 = '1' ∧ ('0' ≤ c2 ∧ c2 ≤ '2') then [(10 + digitVal c2, rest)] else []) ++
    (if c1 = '0' ∧ ('1' ≤ c2 ∧ c2 ≤ '9') then [(digitVal c2, rest)] else []) ++
    (if '1' ≤ c1 ∧ c1 ≤ '9' then [(digitVal c1, c2 :: rest)] else [])
  | [c1] => if '1' ≤ c1 ∧ c1 ≤ '9' then [(digitVal c1, [])] else []
  | [] => []

/-- All ways the `%d` pattern `3[01]|[12]\d|0[1-9]|[1-9]` can match a prefix,
in regex alternation order. -/
def dayParses : List Char → List (Nat × List Char)
  | c1 :: c2 :: rest =>
    (if c1 = '3' ∧ (c2 = '0' ∨ c2 = '1') then [(30 + digitVal c2, rest)] else []) ++
    (if (c1 = '1' ∨ c1 = '2') ∧ c2.isDigit then [(digitVal c1 * 10 + digitVal c2, rest)] else []) ++
    (if c1 = '0' ∧ ('1' ≤ c2 ∧ c2 ≤ '9') then [(digitVal c2, rest)] else []) ++
    (if '1' ≤ c1 ∧ c1 ≤ '9' then [(digitVal c1, c2 :: rest)] else [])
  | [c1] => if '1' ≤ c1 ∧ c1 ≤ '9' then [(digitVal c1, [])] else []
  | [] => []

/-- First alternative (in order) on which the continuation succeeds:
this is how a backtracking regex engine explores alternation. -/
def firstSome {α β : Type} : List α → (α → Option β) → Option β
  | [], _ => none
  | a :: as, f =>
    match f a with
    | some b => some b
    | none => firstSome as f

/-- Full match of a `%Y s1 %m s2 %d trailing` format against the whole
string (CPython raises `ValueError` unless `found.end()` is the length). -/
def matchYMD (sep1 sep2 : Char) (trailing : List Char) (cs : List Char) :
    Option (Nat × Nat × Nat) :=
  match takeDigits4 cs with
  | none => none
  | some yr =>
    match yr.2 with
    | c :: r2 =>
      if c = sep1 then
        firstSome (monthParses r2) fun mr =>
          match mr.2 with
          | c' :: r3 =>
            if c' = sep2 then
              firstSome (dayParses r3) fun dr =>
                if dr.2 = trailing then some (yr.1, mr.1, dr.1) else none
            else none
          | [] => none
      else none
    | [] => none

/-- Gregorian leap year, as `datetime` computes it. -/
def isLeap (y : Nat) : Bool := (y % 4 = 0 && y % 100 ≠ 0) || y % 400 = 0

/-- Days in a month, as `datetime` validates them. -/
def daysInMonth (y m : Nat) : Nat :=
  if m = 2 then (if isLeap y then 29 else 28)
  else if m = 4 ∨ m = 6 ∨ m = 9 ∨ m = 11 then 30
  else 31

/-- The constraints `datetime(year, month, day)` enforces (violations raise
`ValueError`, which `parse_date` catches). -/
def validDate (y m d : Nat) : Bool :=
  decide (1 ≤ y) && decide (y ≤ 9999) && decide (1 ≤ m) && decide (m ≤ 12) &&
  decide (1 ≤ d) && decide (d ≤ daysInMonth y m)

/-- One `datetime.strptime(s, fmt).date()` attempt: regex match of the format
plus the `datetime` validity check; `none` is the `ValueError` the source
`continue`s past. -/
def strptimeDate (sep1 sep2 : Char) (trailing : List Char) (cs : List Char) :
    Option Date :=
  match matchYMD sep1 sep2 trailing cs with
  | some ymd => if validDate ymd.1 ymd.2.1 ymd.2.2 then some ⟨ymd.1, ymd.2.1, ymd.2.2⟩ else none
  | none => none

/-- The ways `\d{1,2}` (greedy) can match a prefix, longest first — the order
a backtracking engine explores them. -/
def grab12 : List Char → List (Nat × List Char)
  | c1 :: c2 :: rest =>
    if c1.isDigit then
      if c2.isDigit then [(digitVal c1 * 10 + digitVal c2, rest), (digitVal c1, c2 :: rest)]
      else [(digitVal c1, c2 :: rest)]
    else []
  | [c1] => if c1.isDigit then [(digitVal c1, [])] else []
  | [] => []

/-- The pattern `(\d{4})[^\d]*(\d{1,2})[^\d]*(\d{1,2})` anchored at the start.
`[^\d]*` sits between digit tokens, so its greedy match is forced; the
`\d{1,2}` groups backtrack from two digits to one. -/
def matchLoose (cs : List Char) : Option (Nat × Nat × Nat) :=
  match takeDigits4 cs with
  | none => none
  | some yr =>
    let r2 := yr.2.dropWhile (fun c => !c.isDigit)
    firstSome (grab12 r2) fun mr =>
      let r4 := mr.2.dropWhile (fun c => !c.isDigit)
      firstSome (grab12 r4) fun dr => some (yr.1, mr.1, dr.1)

/-- `re.search` of the loose pattern: first starting position with a match. -/
def searchLoose : List Char → Option (Nat × Nat × Nat)
  | [] => none
  | c :: rest =>
    match matchLoose (c :: rest) with
    | some r => some r
    | none => searchLoose rest

/-- `NanaLiveAnalyzer.parse_date`: the three `strptime` formats on the
stripped string in order, then the regex fallback on the raw string; the
fallback's `datetime(...)` raising is caught by the outer handler, giving
`None`. -/
def parse_date (s : String) : Option Date :=
  let cs := s.toList
  let t := pyStrip cs
  match strptimeDate '-' '-' [] t with
  | some d => some d
  | none =>
    match strptimeDate '年' '月' ['日'] t with
    | some d => some d
    | none =>
      match strptimeDate '/' '/' [] t with
      | some d => some d
      | none =>
        match searchLoose cs with
        | some ymd => if validDate ymd.1 ymd.2.1 ymd.2.2 then some ⟨ymd.1, ymd.2.1, ymd.2.2⟩ else none
        | none => none

/-! ## List page (`NanaLiveAnalyzer.get_live_history`)

The markup traversal is modelled from the point where the performance-history
table has (or has not) been located; `resolve` stands for
`urljoin(self.base_url, ·)`, which is a library function and is kept
abstract. -/

/-- One entry of the performance list, as the dictionary the source builds. -/
structure LiveData where
  date : Date
  performance_name : String
  venue : String
  url : Option String
deriving DecidableEq, Repr

/-- The per-row body of `get_live_history`: rows need at least three cells, a
detail link is taken from the second cell's anchor when its `href` is truthy,
and a row whose date text does not parse contributes nothing. -/
def rowToLive (resolve : String → String) (cells : List Cell) : Option LiveData :=
  match cells with
  | c0 :: c1 :: c2 :: _ =>
    let detail_url : Option String :=
      match c1.anchor with
      | some a => if a.href ≠ "" then some (resolve a.href) else none
      | none => none
    match parse_date c0.text with
    | some d => some { date := d, performance_name := c1.text, venue := c2.text, url := detail_url }
    | none => none
  | _ => none

/-- `get_live_history`, from the found table onwards: skip the header row,
then collect the rows that survive `rowToLive`.  A missing table is the
`none` case and yields the empty history. -/
def get_live_history (resolve : String → String) (page : Option Table) : List LiveData :=
  match page with
  | none => []
  | some t => (t.trs.drop 1).filterMap (rowToLive resolve)

/-! ## Detail page (`NanaLiveAnalyzer.get_songs_from_detail_page`) -/

/-- One extracted setlist entry. -/
structure SongInfo where
  name : String
  url : String
  remark : Option String
deriving DecidableEq, Repr

/-- Python truthiness of the stored remark value. -/
def strTruthy : Option String → Bool
  | none => false
  | some s => s ≠ ""

/-- The remark-join step of the source: append with the separator `"; "` when
a truthy remark is already present, otherwise start a new remark. -/
def addRemark (old : Option String) (t : String) : Option String :=
  if strTruthy old then some (old.getD "" ++ "; " ++ t) else some t

/-- `songs_with_info[i]['remark'] = ...` on the accumulated list. -/
def attachRemark (acc : List SongInfo) (i : Nat) (t : String) : List SongInfo :=
  match acc[i]? with
  | some s => acc.set i { s with remark := addRemark s.remark t }
  | none => acc

/-- The remark branch of the row loop: a non-empty cell text together with a
non-negative `last_song_index` attaches the text to the last song; otherwise
the row is discarded. -/
def remarkStep (st : List SongInfo × Int) (song_cell : Cell) : List SongInfo × Int :=
  if song_cell.text ≠ "" ∧ st.2 ≥ 0 then
    (attachRemark st.1 st.2.toNat song_cell.text, st.2)
  else st

/-- One iteration of the row loop of `get_songs_from_detail_page`: rows with
fewer than two cells are skipped; a second cell containing an anchor with a
truthy `href` appends a song (updating `last_song_index`); anything else goes
through the remark branch. -/
def processRow (resolve : String → String) (st : List SongInfo × Int) (cells : List Cell) :
    List SongInfo × Int :=
  match cells with
  | _ :: song_cell :: _ =>
    match song_cell.anchor with
    | some a =>
      if a.href ≠ "" then
        let acc := st.1 ++ [{ name := a.text, url := resolve a.href, remark := none }]
        (acc, (acc.length : Int) - 1)
      else remarkStep st song_cell
    | none => remarkStep st song_cell
  | _ => st

/-- The row loop, started with an empty list and `last_song_index = -1`. -/
def extract_songs (resolve : String → String) (rows : List (List Cell)) : List SongInfo :=
  (rows.foldl (processRow resolve) ([], -1)).1

/-- `startsWith` on character lists. -/
def startsWithL : List Char → List Char → Bool
  | [], _ => true
  | _ :: _, [] => false
  | a :: as, b :: bs => a = b && startsWithL as bs

/-- Substring test (Python `in` on strings), on character lists. -/
def containsSeq (needle : List Char) : List Char → Bool
  | [] => startsWithL needle []
  | c :: rest => startsWithL needle (c :: rest) || containsSeq needle rest

/-- `any('楽曲名' in th.get_text() for th in headers)`. -/
def tableHasSongHeader (t : Table) : Bool :=
  t.headers.any fun h => containsSeq "楽曲名".toList h.toList

/-- `get_songs_from_detail_page`: a falsy url returns immediately; a fetch or
parse exception (the `Except.error` case) is caught and yields `[]`; otherwise
the first table whose headers mention the song-title column is scanned with
the row loop, and no such table also yields `[]`. -/
def get_songs_from_detail_page (resolve : String → String)
    (fetch : String → Except Unit (List Table)) (url : Option String) : List SongInfo :=
  match url with
  | none => []
  | some u =>
    if u = "" then []
    else
      match fetch u with
      | Except.error _ => []
      | Except.ok tables =>
        match tables.find? tableHasSongHeader with
        | some t => extract_songs resolve (t.trs.drop 1)
        | none => []

/-! ## The relational store and the persistence layer -/

/-- A row of `live_history`, keyed externally by `(date, performance_name)`. -/
structure ShowRow where
  id : Nat
  venue : String
  url : Option String
deriving DecidableEq, Repr

/-- A row of `live_song`, keyed externally by `name`. -/
structure SongRow where
  id : Nat
  song_url : Option String
deriving DecidableEq, Repr

/-- A row of `live_history_song`, keyed externally by
`(live_history_id, live_song_id)`. -/
structure AssocRow where
  song_order : Nat
  remark : Option String
deriving DecidableEq, Repr

/-- Point update of a finite map. -/
def setMap {α β : Type} [DecidableEq α] (m : α → Option β) (k : α) (v : β) :
    α → Option β :=
  fun x => if x = k then some v else m x

/-- The three tables plus the serial counters. -/
structure Store where
  shows : Date × String → Option ShowRow
  songs : String → Option SongRow
  assocs : Nat × Nat → Option AssocRow
  nextShowId : Nat
  nextSongId : Nat

/-- Python truthiness of an id value (`if song_id:`). -/
def truthyN : Option Nat → Bool
  | none => false
  | some i => i ≠ 0

/-- `_load_existing_songs`: bulk-load every `(name, id)` pair of `live_song`
into the cache. -/
def load_existing_songs (st : Store) : String → Option Nat :=
  fun n => (st.songs n).map (·.id)

/-- The `INSERT INTO live_history ... ON CONFLICT (date, performance_name) DO
UPDATE ... RETURNING id` statement: returns the id (existing on conflict,
fresh otherwise) and the updated store. -/
def upsertShow (st : Store) (ld : LiveData) : Nat × Store :=
  let key := (ld.date, ld.performance_name)
  match st.shows key with
  | some r =>
    (r.id, { st with shows := setMap st.shows key { id := r.id, venue := ld.venue, url := ld.url } })
  | none =>
    (st.nextShowId,
     { st with shows := setMap st.shows key { id := st.nextShowId, venue := ld.venue, url := ld.url },
               nextShowId := st.nextShowId + 1 })

/-- `save_live_history`: on any exception the transaction is rolled back and
`None` is returned; otherwise the upsert commits and the id is returned. -/
def save_live_history (failFlag : Bool) (st : Store) (ld : LiveData) : Option Nat × Store :=
  if failFlag then (none, st)
  else
    let r := upsertShow st ld
    (some r.1, r.2)

/-- The `INSERT INTO live_song ... ON CONFLICT (name) DO UPDATE SET song_url
... RETURNING id` statement, executed inside the transaction (not yet
committed). -/
def songInsertTxn (st : Store) (name : String) (url : Option String) : Nat × Store :=
  match st.songs name with
  | some r => (r.id, { st with songs := setMap st.songs name { id := r.id, song_url := url } })
  | none =>
    (st.nextSongId,
     { st with songs := setMap st.songs name { id := st.nextSongId, song_url := url },
               nextSongId := st.nextSongId + 1 })

/-- `save_song`: a cache hit returns the cached id at once.  On a miss the
insert runs; `insertFail` models the execute/fetch raising (rollback, nothing
changed).  The source then puts the id into the cache (`if song_id:`) and only
afterwards commits; `commitFail` models the commit raising, which rolls the
store back but leaves the already-updated cache in place. -/
def save_song (insertFail commitFail : Bool) (c : String → Option Nat) (st : Store)
    (name : String) (url : Option String) : Option Nat × (String → Option Nat) × Store :=
  match c name with
  | some i => (some i, c, st)
  | none =>
    if insertFail then (none, c, st)
    else
      let t := songInsertTxn st name url
      let c' := if t.1 ≠ 0 then setMap c name t.1 else c
      if commitFail then (none, c', st)
      else (some t.1, c', t.2)

/-- `enumerate(xs, start)`. -/
def enumFrom {α : Type} : Nat → List α → List (Nat × α)
  | _, [] => []
  | n, a :: as => (n, a) :: enumFrom (n + 1) as

/-- One candidate row of `relations_data`: the entry is kept when
`self.song_cache.get(name)` is truthy. -/
def relStep (c : String → Option Nat) (lid : Nat) (ks : Nat × SongInfo) :
    Option (Nat × Nat × Nat × Option String) :=
  match c ks.2.name with
  | some i => if i ≠ 0 then some (lid, i, ks.1, ks.2.remark) else none
  | none => none

/-- The `relations_data` list of `save_live_song_relations_batch`: one tuple
`(live_history_id, song_id, order, remark)` per entry whose name resolves to a
truthy id in the cache, with `order` from `enumerate(songs_with_info, 1)`. -/
def relationsData (c : String → Option Nat) (lid : Nat) (songs : List SongInfo) :
    List (Nat × Nat × Nat × Option String) :=
  (enumFrom 1 songs).filterMap (relStep c lid)

/-- Effect of one association upsert row on the store. -/
def applyAssoc (st : Store) (r : Nat × Nat × Nat × Option String) : Store :=
  { st with assocs := setMap st.assocs (r.1, r.2.1) { song_order := r.2.2.1, remark := r.2.2.2 } }

/-- `cursor.executemany` over the relation rows inside one transaction:
statements run in order until one raises (`fail k`), in which case the whole
transaction is lost (`none`). -/
def execManyAux (fail : Nat → Bool) : Nat → Store → List (Nat × Nat × Nat × Option String) →
    Option Store
  | _, st, [] => some st
  | k, st, r :: rs => if fail k then none else execManyAux fail (k + 1) (applyAssoc st r) rs

/-- `save_live_song_relations_batch`: nothing happens for an empty setlist or
an empty relation list; otherwise the batch runs in one transaction and
commits, and any exception (statement or commit) rolls everything back,
leaving the store as it was. -/
def save_live_song_relations_batch (execFail : Nat → Bool) (commitFail : Bool)
    (c : String → Option Nat) (st : Store) (lid : Nat) (songs : List SongInfo) : Store :=
  if songs.isEmpty then st
  else
    let rels := relationsData c lid songs
    if rels.isEmpty then st
    else
      match execManyAux execFail 0 st rels with
      | none => st
      | some st' => if commitFail then st else st'

/-! ## The orchestrator loop (`NanaLiveAnalyzer.run`) -/

/-- Externally visible actions of the loop that the temporal claims speak
about: the start of an entry's processing and the `time.sleep(0.5)` pacing
delay. -/
inductive Action where
  | beginEntry (i : Nat)
  | sleep
deriving DecidableEq, Repr

/-- The collaborators and fault injection points of one run. -/
structure RunEnv where
  resolve : String → String
  fetch : String → Except Unit (List Table)
  showFail : Nat → Bool
  songInsertFail : String → Bool
  songCommitFail : String → Bool
  batchExecFail : Nat → Nat → Bool
  batchCommitFail : Nat → Bool

/-- A run with no database faults. -/
def pureEnv (resolve : String → String) (fetch : String → Except Unit (List Table)) : RunEnv :=
  { resolve := resolve, fetch := fetch,
    showFail := fun _ => false, songInsertFail := fun _ => false,
    songCommitFail := fun _ => false, batchExecFail := fun _ _ => false,
    batchCommitFail := fun _ => false }

/-- The `for song_info in songs_with_info` save loop of `run`: names already
in the cache are skipped, the rest go through `save_song`. -/
def saveSongsLoop (insF comF : String → Bool) (c : String → Option Nat) (st : Store) :
    List SongInfo → (String → Option Nat) × Store
  | [] => (c, st)
  | s :: rest =>
    if (c s.name).isSome then saveSongsLoop insF comF c st rest
    else
      let r := save_song (insF s.name) (comF s.name) c st s.name (some s.url)
      saveSongsLoop insF comF r.2.1 r.2.2 rest

/-- The body of one iteration of the orchestrator loop, without the trailing
sleep; the returned boolean is whether the iteration reaches the sleep (it is
skipped exactly by the `continue` on a falsy `live_history_id`). -/
def entryStep (env : RunEnv) (i : Nat) (c : String → Option Nat) (st : Store) (ld : LiveData) :
    (String → Option Nat) × Store × Bool :=
  let p := save_live_history (env.showFail i) st ld
  if truthyN p.1 then
    let lid := p.1.getD 0
    let songs := get_songs_from_detail_page env.resolve env.fetch ld.url
    if songs.isEmpty then (c, p.2, true)
    else
      let q := saveSongsLoop env.songInsertFail env.songCommitFail c p.2 songs
      let st3 := save_live_song_relations_batch (env.batchExecFail i) (env.batchCommitFail i)
        q.1 q.2 lid songs
      (q.1, st3, true)
  else (c, p.2, false)

/-- The orchestrator loop from entry index `i`, returning the final cache and
store and the trace of entry starts and pacing delays. -/
def runFrom (env : RunEnv) : Nat → (String → Option Nat) → Store → List LiveData →
    (String → Option Nat) × Store × List Action
  | _, c, st, [] => (c, st, [])
  | i, c, st, ld :: rest =>
    let e := entryStep env i c st ld
    let r := runFrom env (i + 1) e.1 e.2.1 rest
    (r.1, r.2.1, Action.beginEntry i :: ((if e.2.2 then [Action.sleep] else []) ++ r.2.2))

/-- One process run: the cache is bulk-loaded from the store at startup, then
the loop processes the given entries. -/
def run (env : RunEnv) (entries : List LiveData) (st : Store) :
    (String → Option Nat) × Store × List Action :=
  runFrom env 0 (load_existing_songs st) st entries

/-- The whole pipeline of one process: parse the list page, then run the
loop. -/
def runPipeline (env : RunEnv) (page : Option Table) (st : Store) :
    (String → Option Nat) × Store × List Action :=
  run env (get_live_history env.resolve page) st

/-! ## Small store and list lemmas -/

/-- An empty store with the serial counters at their initial value. -/
def emptyStore : Store :=
  { shows := fun _ => none, songs := fun _ => none, assocs := fun _ => none,
    nextShowId := 1, nextSongId := 1 }

theorem setMap_same {α β : Type} [DecidableEq α] (m : α → Option β) (k : α) (v : β) :
    setMap m k v k = some v := by
  simp [setMap]

theorem setMap_other {α β : Type} [DecidableEq α] (m : α → Option β) (k x : α) (v : β)
    (h : x ≠ k) : setMap m k v x = m x := by
  simp [setMap, h]

theorem enumFrom_append {α : Type} (xs ys : List α) :
    ∀ n, enumFrom n (xs ++ ys) = enumFrom n xs ++ enumFrom (n + xs.length) ys := by
  induction xs with
  | nil => intro n; simp [enumFrom]
  | cons a as ih =>
    intro n
    have h : n + 1 + as.length = n + (as.length + 1) := by omega
    simp [enumFrom, ih (n + 1), h]

theorem fst_mem_enumFrom {α : Type} :
    ∀ (l : List α) (n : Nat) (p : Nat × α), p ∈ enumFrom n l → n ≤ p.1 ∧ p.1 < n + l.length := by
  intro l
  induction l with
  | nil => intro n p h; cases h
  | cons a as ih =>
    intro n p h
    simp only [enumFrom, List.mem_cons] at h
    rcases h with h | h
    · subst h
      refine ⟨Nat.le_refl n, ?_⟩
      simp only [List.length_cons]
      omega
    · obtain ⟨h1, h2⟩ := ih (n + 1) p h
      simp only [List.length_cons]
      exact ⟨by omega, by omega⟩

theorem execManyAux_nofail (rels : List (Nat × Nat × Nat × Option String)) :
    ∀ (k : Nat) (st : Store),
      execManyAux (fun _ => false) k st rels = some (rels.foldl applyAssoc st) := by
  induction rels with
  | nil => intro k st; rfl
  | cons r rs ih => intro k st; simp [execManyAux, List.foldl, ih]

theorem execManyAux_some (fail : Nat → Bool) (rels : List (Nat × Nat × Nat × Option String)) :
    ∀ (k : Nat) (st st' : Store),
      execManyAux fail k st rels = some st' → st' = rels.foldl applyAssoc st := by
  induction rels with
  | nil =>
    intro k st st' h
    simp [execManyAux] at h
    simp [h.symm]
  | cons r rs ih =>
    intro k st st' h
    simp only [execManyAux] at h
    split at h
    · cases h
    · exact ih (k + 1) (applyAssoc st r) st' h

/-! ## Claim C1 — write-through cache versus the store

The source adds the freshly returned id to `self.song_cache` *before*
`conn.commit()`.  When the commit raises, the transaction is rolled back (no
`live_song` row), the function returns `None`, but the cache keeps the entry:
after the call the cache has a song name that has no row in the store.  The
claim (and the spec: cache entry iff store row, also across a failed commit)
is therefore violated by the code; the spec is clearly the intent, since the
very next step of the run feeds the cached id into association rows that would
reference a row that does not exist. -/

/-- C1: evaluating `save_song` at the failing input — empty cache and store,
name `"A"`, and a commit that fails.  The call returns `None` and leaves the
store without a row for `"A"`, yet the cache now maps `"A"` to the
rolled-back id 1: the cache and the store diverge permanently, contradicting
the claimed write-through invariant. -/
theorem C1_commit_failure_cache_store_divergence :
    (save_song false true (fun _ => none) emptyStore "A" (some "u")).1 = none ∧
    (save_song false true (fun _ => none) emptyStore "A" (some "u")).2.1 "A" = some 1 ∧
    (save_song false true (fun _ => none) emptyStore "A" (some "u")).2.2.songs "A" = none := by
  refine ⟨rfl, ?_, rfl⟩
  simp [save_song, songInsertTxn, emptyStore, setMap]

/-! ## Claim C3 — a later encounter with a differing URL -/

/-- A store holding the song `"A"` with id 7 and url `"u1"`, as it stands at
process start. -/
def c3Store : Store :=
  { shows := fun _ => none,
    songs := fun n => if n = "A" then some { id := 7, song_url := some "u1" } else none,
    assocs := fun _ => none, nextShowId := 1, nextSongId := 8 }

/-- C3 counterexample: the song `"A"` already has a row in the store when the
process starts, so `_load_existing_songs` puts it in the cache; a later
encounter with the differing URL `"u2"` then hits the cache and returns the
identity without touching the database — the stored URL stays `"u1"`,
refuting the claim that a later encounter with a differing URL updates the
stored URL. -/
theorem C3_cached_song_url_not_updated :
    (save_song false false (load_existing_songs c3Store) c3Store "A" (some "u2")).1 = some 7 ∧
    (save_song false false (load_existing_songs c3Store) c3Store "A" (some "u2")).2.2.songs "A" =
      some { id := 7, song_url := some "u1" } ∧
    ({ id := 7, song_url := some "u1" } : SongRow) ≠ { id := 7, song_url := some "u2" } := by
  refine ⟨rfl, rfl, by decide⟩

/-- C3 (amended): a `save_song` call for a name present in the cache returns
the cached identity and leaves the store untouched — the URL is *not*
updated; the insert-or-on-conflict-update-url statement runs only on a cache
miss, and only there a later encounter's URL reaches the store: on conflict
the row's url is overwritten and its id returned, on a fresh name the row is
inserted, the identity being returned either way. -/
theorem C3_url_update_only_on_cache_miss (insF comF : Bool) (c : String → Option Nat)
    (st : Store) (name : String) (url : Option String) :
    (∀ i, c name = some i → save_song insF comF c st name url = (some i, c, st)) ∧
    (c name = none → ∀ r, st.songs name = some r →
      save_song false false c st name url =
        (some r.id, (if r.id ≠ 0 then setMap c name r.id else c),
         { st with songs := setMap st.songs name { id := r.id, song_url := url } })) ∧
    (c name = none → st.songs name = none →
      save_song false false c st name url =
        (some st.nextSongId, (if st.nextSongId ≠ 0 then setMap c name st.nextSongId else c),
         { st with songs := setMap st.songs name { id := st.nextSongId, song_url := url },
                   nextSongId := st.nextSongId + 1 })) := by
  refine ⟨?_, ?_, ?_⟩
  · intro i hi; simp [save_song, hi]
  · intro hc r hr; simp [save_song, hc, songInsertTxn, hr]
  · intro hc hr; simp [save_song, hc, songInsertTxn, hr]

/-- C3 witness: the amended theorem applied at concrete inputs — a cache hit
for `"A"` (id 7) leaves `c3Store` unchanged, and a miss for the fresh name
`"B"` inserts a row carrying the new URL. -/
theorem C3_url_update_only_on_cache_miss_witness :
    save_song false false (load_existing_songs c3Store) c3Store "A" (some "u2") =
      (some 7, load_existing_songs c3Store, c3Store) ∧
    save_song false false (load_existing_songs c3Store) c3Store "B" (some "u3") =
      (some 8, (if (8 : Nat) ≠ 0 then setMap (load_existing_songs c3Store) "B" 8
                else load_existing_songs c3Store),
       { c3Store with songs := setMap c3Store.songs "B" { id := 8, song_url := some "u3" },
                      nextSongId := 9 }) := by
  constructor
  · exact (C3_url_update_only_on_cache_miss false false (load_existing_songs c3Store) c3Store
      "A" (some "u2")).1 7 rfl
  · exact (C3_url_update_only_on_cache_miss false false (load_existing_songs c3Store) c3Store
      "B" (some "u3")).2.2 rfl rfl

/-! ## Claim C7 — atomicity of the association batch -/

/-- C7: for every fault pattern, the association batch either leaves the
store exactly as it was (any statement of the `executemany`, or the commit,
raising rolls the transaction back) or applies every relation row of the
batch; and whenever the batch or its commit fails, the result is exactly the
original store. -/
theorem C7_batch_all_or_nothing (execFail : Nat → Bool) (commitFail : Bool)
    (c : String → Option Nat) (st : Store) (lid : Nat) (songs : List SongInfo) :
    (save_live_song_relations_batch execFail commitFail c st lid songs = st ∨
     save_live_song_relations_batch execFail commitFail c st lid songs =
       (relationsData c lid songs).foldl applyAssoc st) ∧
    ((execManyAux execFail 0 st (relationsData c lid songs) = none ∨ commitFail = true) →
      save_live_song_relations_batch execFail commitFail c st lid songs = st) := by
  by_cases hs : songs.isEmpty
  · exact ⟨Or.inl (by simp [save_live_song_relations_batch, hs]),
      fun _ => by simp [save_live_song_relations_batch, hs]⟩
  · by_cases hr : (relationsData c lid songs).isEmpty
    · exact ⟨Or.inl (by simp [save_live_song_relations_batch, hs, hr]),
        fun _ => by simp [save_live_song_relations_batch, hs, hr]⟩
    · rcases h : execManyAux execFail 0 st (relationsData c lid songs) with _ | st'
      · exact ⟨Or.inl (by simp [save_live_song_relations_batch, hs, hr, h]),
          fun _ => by simp [save_live_song_relations_batch, hs, hr, h]⟩
      · have hst' := execManyAux_some execFail (relationsData c lid songs) 0 st st' h
        by_cases hcf : commitFail = true
        · exact ⟨Or.inl (by simp [save_live_song_relations_batch, hs, hr, h, hcf]),
            fun _ => by simp [save_live_song_relations_batch, hs, hr, h, hcf]⟩
        · refine ⟨Or.inr (by simp [save_live_song_relations_batch, hs, hr, h, hcf, hst']), ?_⟩
          intro hf
          rcases hf with hf | hf
          · simp [h] at hf
          · exact absurd hf hcf

/-- C7 witness: the atomicity theorem applied with a statement fault injected
at index 0 on a one-song batch: the store is returned unchanged. -/
theorem C7_batch_all_or_nothing_witness :
    save_live_song_relations_batch (fun _ => true) false (fun _ => some 1) emptyStore 5
      [{ name := "A", url := "u", remark := none }] = emptyStore := by
  exact (C7_batch_all_or_nothing (fun _ => true) false (fun _ => some 1) emptyStore 5
    [{ name := "A", url := "u", remark := none }]).2 (Or.inl rfl)

/-! ## Claim C9 — date normalization and dropping of unparsable rows -/

theorem rowToLive_date_fail (resolve : String → String) (c0 : Cell) (rcs : List Cell)
    (h : parse_date c0.text = none) : rowToLive resolve (c0 :: rcs) = none := by
  cases rcs with
  | nil => rfl
  | cons c1 rcs' =>
    cases rcs' with
    | nil => rfl
    | cons c2 r => simp [rowToLive, h]

/-- C9: the three date formats `2024-05-01`, `2024年05月01日` and `2024/05/01`
all normalize to the calendar date 2024-05-01; `TBD` yields the no-date value
(the embedding is a total function into `Option Date`, so failure never
escapes `parse_date`); and a list row whose date text fails to normalize is
dropped by the list parser: the history is the same as if the row were not
there. -/
theorem C9_date_normalization_and_row_drop :
    (parse_date "2024-05-01" = some ⟨2024, 5, 1⟩ ∧
     parse_date "2024年05月01日" = some ⟨2024, 5, 1⟩ ∧
     parse_date "2024/05/01" = some ⟨2024, 5, 1⟩ ∧
     parse_date "TBD" = none) ∧
    (∀ (resolve : String → String) (hdr : List String) (hrow : List Cell)
       (pre post : List (List Cell)) (c0 : Cell) (rcs : List Cell),
      parse_date c0.text = none →
      get_live_history resolve (some ⟨hdr, hrow :: (pre ++ (c0 :: rcs) :: post)⟩) =
        get_live_history resolve (some ⟨hdr, hrow :: (pre ++ post)⟩)) := by
  constructor
  · exact ⟨rfl, rfl, rfl, rfl⟩
  · intro resolve hdr hrow pre post c0 rcs h
    simp [get_live_history, List.filterMap_append, List.filterMap_cons,
      rowToLive_date_fail resolve c0 rcs h]

/-- C9 witness: the row-drop part of the theorem applied to a concrete list
page holding a single `TBD` row, which yields an empty history. -/
theorem C9_date_normalization_and_row_drop_witness :
    get_live_history (fun s => s)
      (some ⟨[], [[], [⟨"TBD", none⟩, ⟨"t", none⟩, ⟨"v", none⟩]]⟩) = [] := by
  have h := C9_date_normalization_and_row_drop.2 (fun s => s) [] [] [] []
    ⟨"TBD", none⟩ [⟨"t", none⟩, ⟨"v", none⟩] (by decide)
  simpa using h

/-! ## Claim C10 — a setlist entry missing from the cache at batch time -/

theorem relStep_untruthy (c : String → Option Nat) (lid : Nat) (ks : Nat × SongInfo)
    (h : truthyN (c ks.2.name) = false) : relStep c lid ks = none := by
  unfold relStep
  cases hc : c ks.2.name with
  | none => rfl
  | some i =>
    rw [hc] at h
    simp [truthyN] at h
    simp [h]

theorem relStep_order (c : String → Option Nat) (lid : Nat) (ks : Nat × SongInfo)
    (r : Nat × Nat × Nat × Option String) (h : relStep c lid ks = some r) :
    r.2.2.1 = ks.1 := by
  unfold relStep at h
  split at h
  · split at h
    · cases h; rfl
    · cases h
  · cases h

/-- C10: when the entry at 1-based index `|pre| + 1` of a setlist does not
resolve to a truthy cached identity at batch time, the relation list contains
no row for it, the rows for the earlier and later entries keep their original
1-based indices (so no stored row carries the position `|pre| + 1` — a gap),
and the fault-free batch still commits all remaining rows: the missing entry
never fails the batch. -/
theorem C10_unresolved_entry_leaves_gap (c : String → Option Nat) (lid : Nat)
    (pre post : List SongInfo) (s : SongInfo) (st : Store)
    (h : truthyN (c s.name) = false) :
    relationsData c lid (pre ++ s :: post) =
      (enumFrom 1 pre).filterMap (relStep c lid) ++
        (enumFrom (pre.length + 2) post).filterMap (relStep c lid) ∧
    (∀ r ∈ relationsData c lid (pre ++ s :: post), r.2.2.1 ≠ pre.length + 1) ∧
    save_live_song_relations_batch (fun _ => false) false c st lid (pre ++ s :: post) =
      (relationsData c lid (pre ++ s :: post)).foldl applyAssoc st := by
  have hsplit : relationsData c lid (pre ++ s :: post) =
      (enumFrom 1 pre).filterMap (relStep c lid) ++
        (enumFrom (pre.length + 2) post).filterMap (relStep c lid) := by
    unfold relationsData
    rw [enumFrom_append pre (s :: post) 1]
    have h1 : 1 + pre.length = pre.length + 1 := by omega
    rw [h1]
    simp only [enumFrom, List.filterMap_append, List.filterMap_cons,
      relStep_untruthy c lid (pre.length + 1, s) h]
  refine ⟨hsplit, ?_, ?_⟩
  · intro r hr
    rw [hsplit] at hr
    rcases List.mem_append.mp hr with hm | hm
    · obtain ⟨ks, hks, hstep⟩ := List.mem_filterMap.mp hm
      have hb := fst_mem_enumFrom pre 1 ks hks
      have := relStep_order c lid ks r hstep
      omega
    · obtain ⟨ks, hks, hstep⟩ := List.mem_filterMap.mp hm
      have hb := fst_mem_enumFrom post (pre.length + 2) ks hks
      have := relStep_order c lid ks r hstep
      omega
  · unfold save_live_song_relations_batch
    have hne : (pre ++ s :: post).isEmpty = false := by
      cases pre <;> rfl
    rw [hne]
    simp only [Bool.false_eq_true, if_false]
    by_cases hre : (relationsData c lid (pre ++ s :: post)).isEmpty
    · rw [if_pos hre, List.isEmpty_iff.mp hre]
      rfl
    · rw [if_neg hre, execManyAux_nofail]

/-- C10 witness: the theorem applied to a concrete batch in which the middle
entry's name is not in the cache — the committed relation rows are exactly
the first and third entries with positions 1 and 3. -/
theorem C10_unresolved_entry_leaves_gap_witness :
    relationsData (fun n => if n = "A" then some 1 else none) 5
      ([{ name := "A", url := "u", remark := none }] ++
        { name := "B", url := "u", remark := none } ::
          [{ name := "A", url := "u", remark := some "x" }]) =
      [(5, 1, 1, none), (5, 1, 3, some "x")] := by
  have h := (C10_unresolved_entry_leaves_gap (fun n => if n = "A" then some 1 else none) 5
    [{ name := "A", url := "u", remark := none }]
    [{ name := "A", url := "u", remark := some "x" }]
    { name := "B", url := "u", remark := none } emptyStore (by decide)).1
  rw [h]
  decide

/-! ## Claims C4 and C5 — the stateful row classification -/

/-- Whether a detail-page row is a *song row*: at least two cells and an
anchor with a truthy `href` in the second one. -/
def isSongRow : List Cell → Bool
  | _ :: sc :: _ =>
    match sc.anchor with
    | some a => a.href ≠ ""
    | none => false
  | _ => false

/-- The `(name, resolved url)` of a song row, `none` for every other row. -/
def songRowEntry (resolve : String → String) : List Cell → Option (String × String)
  | _ :: sc :: _ =>
    match sc.anchor with
    | some a => if a.href ≠ "" then some (a.text, resolve a.href) else none
    | none => none
  | _ => none

theorem attachRemark_cons (a : SongInfo) (as : List SongInfo) (i : Nat) (t : String) :
    attachRemark (a :: as) (i + 1) t = a :: attachRemark as i t := by
  unfold attachRemark
  cases h : as[i]? with
  | none => simp [List.getElem?_cons_succ, h]
  | some s => simp [List.getElem?_cons_succ, h]

theorem attachRemark_length (acc : List SongInfo) (i : Nat) (t : String) :
    (attachRemark acc i t).length = acc.length := by
  unfold attachRemark
  cases h : acc[i]? with
  | none => simp [h]
  | some s => simp [h]

theorem attachRemark_map_nameUrl :
    ∀ (acc : List SongInfo) (i : Nat) (t : String),
      (attachRemark acc i t).map (fun s => (s.name, s.url)) =
        acc.map fun s => (s.name, s.url) := by
  intro acc
  induction acc with
  | nil => intro i t; rfl
  | cons a as ih =>
    intro i t
    cases i with
    | zero =>
      unfold attachRemark
      simp
    | succ j =>
      rw [attachRemark_cons]
      simp [ih j t]

/-- A non-song row leaves the initial state `([], -1)` unchanged. -/
theorem processRow_nonsong_init (resolve : String → String) (r : List Cell)
    (h : isSongRow r = false) : processRow resolve ([], -1) r = ([], -1) := by
  cases r with
  | nil => rfl
  | cons c0 rest =>
    cases rest with
    | nil => rfl
    | cons sc rest2 =>
      obtain ⟨sctext, scanchor⟩ := sc
      cases scanchor with
      | none => simp [processRow, remarkStep]
      | some a =>
        have hh : a.href = "" := by
          simpa [isSongRow] using h
        simp [processRow, remarkStep, hh]

theorem foldl_nonsong_init (resolve : String → String) :
    ∀ rows : List (List Cell), (∀ r ∈ rows, isSongRow r = false) →
      rows.foldl (processRow resolve) ([], -1) = ([], -1) := by
  intro rows
  induction rows with
  | nil => intro _; rfl
  | cons r rs ih =>
    intro h
    have hr := processRow_nonsong_init resolve r (h r (List.mem_cons_self r rs))
    simp only [List.foldl_cons, hr]
    exact ih fun x hx => h x (List.mem_cons_of_mem r hx)

/-- The invariant the row loop maintains between `songs_with_info` and
`last_song_index`: either nothing has been collected and the index is `-1`,
or the index points at the last collected song. -/
def ExtractInv (st : List SongInfo × Int) : Prop :=
  (st.1 = [] ∧ st.2 = -1) ∨ (st.1 ≠ [] ∧ st.2 = (st.1.length : Int) - 1)

theorem remarkStep_inv (st : List SongInfo × Int) (sc : Cell) (h : ExtractInv st) :
    ExtractInv (remarkStep st sc) := by
  unfold remarkStep
  split
  · rename_i hcond
    rcases h with ⟨h1, h2⟩ | ⟨h1, h2⟩
    · rw [h2] at hcond
      exact absurd hcond.2 (by decide)
    · right
      refine ⟨?_, ?_⟩
      · show attachRemark st.1 st.2.toNat sc.text ≠ []
        intro hnil
        have hlen := attachRemark_length st.1 st.2.toNat sc.text
        rw [hnil] at hlen
        exact h1 (List.eq_nil_of_length_eq_zero hlen.symm)
      · show st.2 = ((attachRemark st.1 st.2.toNat sc.text).length : Int) - 1
        rw [attachRemark_length]
        exact h2
  · exact h

theorem processRow_inv (resolve : String → String) (st : List SongInfo × Int)
    (cells : List Cell) (h : ExtractInv st) : ExtractInv (processRow resolve st cells) := by
  cases cells with
  | nil => exact h
  | cons c0 rest =>
    cases rest with
    | nil => exact h
    | cons sc rest2 =>
      obtain ⟨sctext, scanchor⟩ := sc
      cases scanchor with
      | none => simpa [processRow] using remarkStep_inv st ⟨sctext, none⟩ h
      | some a =>
        by_cases hh : a.href = ""
        · simpa [processRow, hh] using remarkStep_inv st ⟨sctext, some a⟩ h
        · refine Or.inr ⟨?_, ?_⟩ <;> simp [processRow, hh]

theorem foldl_extract_inv (resolve : String → String) :
    ∀ (rows : List (List Cell)) (st : List SongInfo × Int), ExtractInv st →
      ExtractInv (rows.foldl (processRow resolve) st) := by
  intro rows
  induction rows with
  | nil => intro st h; exact h
  | cons r rs ih =>
    intro st h
    exact ih (processRow resolve st r) (processRow_inv resolve st r h)

/-- Fold characterization of the names and urls collected by the row loop:
remark rows change no name and no url, song rows append theirs in order. -/
theorem foldl_map_nameUrl (resolve : String → String) :
    ∀ (rows : List (List Cell)) (st : List SongInfo × Int),
      ((rows.foldl (processRow resolve) st).1.map fun s => (s.name, s.url)) =
        (st.1.map fun s => (s.name, s.url)) ++ rows.filterMap (songRowEntry resolve) := by
  intro rows
  induction rows with
  | nil => intro st; simp
  | cons r rs ih =>
    intro st
    simp only [List.foldl_cons, List.filterMap_cons]
    have hrem : ∀ sc : Cell, ((remarkStep st sc).1.map fun s => (s.name, s.url)) =
        st.1.map fun s => (s.name, s.url) := by
      intro sc
      unfold remarkStep
      split
      · exact attachRemark_map_nameUrl st.1 st.2.toNat sc.text
      · rfl
    cases r with
    | nil => rw [ih]; rfl
    | cons c0 rest =>
      cases rest with
      | nil => rw [ih]; rfl
      | cons sc rest2 =>
        obtain ⟨sctext, scanchor⟩ := sc
        cases scanchor with
        | none =>
          have hsre : songRowEntry resolve (c0 :: (⟨sctext, none⟩ : Cell) :: rest2) = none := by
            simp [songRowEntry]
          have hpr : processRow resolve st (c0 :: (⟨sctext, none⟩ : Cell) :: rest2) =
              remarkStep st ⟨sctext, none⟩ := by
            simp [processRow]
          rw [hpr, ih, hrem, hsre]
        | some a =>
          by_cases hh : a.href = ""
          · have hsre : songRowEntry resolve (c0 :: (⟨sctext, some a⟩ : Cell) :: rest2) =
                none := by
              simp [songRowEntry, hh]
            have hpr : processRow resolve st (c0 :: (⟨sctext, some a⟩ : Cell) :: rest2) =
                remarkStep st ⟨sctext, some a⟩ := by
              simp [processRow, hh]
            rw [hpr, ih, hrem, hsre]
          · have hsre : songRowEntry resolve (c0 :: (⟨sctext, some a⟩ : Cell) :: rest2) =
                some (a.text, resolve a.href) := by
              simp [songRowEntry, hh]
            have hpr : processRow resolve st (c0 :: (⟨sctext, some a⟩ : Cell) :: rest2) =
                (st.1 ++ [({ name := a.text, url := resolve a.href, remark := none } : SongInfo)],
                 ((st.1 ++ [({ name := a.text, url := resolve a.href, remark := none } : SongInfo)]).length : Int)
                   - 1) := by
              simp [processRow, hh]
            rw [hpr, ih, hsre]
            simp

/-- C4: (1) the spec's multi-remark example — a linked song row followed by
two non-song rows with texts `tx` and `ty` stores the remark `tx ++ "; " ++ ty`
for that song, joined in order of appearance with the exact separator `"; "`;
(2) a non-song row occurring before any song row is discarded: the extraction
of any row sequence whose prefix contains no song row is unchanged by
removing such a row from it; (3) in general a non-song row with non-empty
text attaches its text to the most recently collected song row (a no-op when
none has been collected). -/
theorem C4_remark_attachment :
    (∀ (resolve : String → String) (c0 c0x c0y : Cell) (nm h tx ty : String),
      h ≠ "" → tx ≠ "" → ty ≠ "" →
      extract_songs resolve
        [[c0, ⟨nm, some ⟨h, nm⟩⟩], [c0x, ⟨tx, none⟩], [c0y, ⟨ty, none⟩]] =
        [⟨nm, resolve h, some (tx ++ "; " ++ ty)⟩]) ∧
    (∀ (resolve : String → String) (pre post : List (List Cell)) (c0 sc : Cell)
       (rest : List Cell),
      (∀ r ∈ pre, isSongRow r = false) → isSongRow (c0 :: sc :: rest) = false →
      extract_songs resolve (pre ++ (c0 :: sc :: rest) :: post) =
        extract_songs resolve (pre ++ post)) ∧
    (∀ (resolve : String → String) (rows : List (List Cell)) (c0 : Cell) (t : String),
      t ≠ "" →
      extract_songs resolve (rows ++ [[c0, ⟨t, none⟩]]) =
        attachRemark (extract_songs resolve rows)
          ((extract_songs resolve rows).length - 1) t) := by
  refine ⟨?_, ?_, ?_⟩
  · intro resolve c0 c0x c0y nm h tx ty hh htx hty
    simp [extract_songs, processRow, remarkStep, attachRemark, addRemark, strTruthy,
      hh, htx, hty]
  · intro resolve pre post c0 sc rest hpre hrow
    unfold extract_songs
    rw [List.foldl_append, List.foldl_append, foldl_nonsong_init resolve pre hpre,
      List.foldl_cons, processRow_nonsong_init resolve (c0 :: sc :: rest) hrow]
  · intro resolve rows c0 t ht
    unfold extract_songs
    rw [List.foldl_append]
    simp only [List.foldl_cons, List.foldl_nil, processRow]
    rcases foldl_extract_inv resolve rows ([], -1) (Or.inl ⟨rfl, rfl⟩) with ⟨h1, h2⟩ | ⟨h1, h2⟩
    · unfold remarkStep
      rw [if_neg (by simp [h2])]
      rw [h1]
      rfl
    · have hlen : 1 ≤ (rows.foldl (processRow resolve) ([], -1)).1.length :=
        List.length_pos.mpr h1
      unfold remarkStep
      rw [if_pos ⟨ht, by rw [h2]; omega⟩]
      show attachRemark (rows.foldl (processRow resolve) ([], -1)).1
          (rows.foldl (processRow resolve) ([], -1)).2.toNat t = _
      have harg : (rows.foldl (processRow resolve) ([], -1)).2.toNat =
          (rows.foldl (processRow resolve) ([], -1)).1.length - 1 := by
        rw [h2]
        omega
      rw [harg]

/-- C4 witness: the attachment theorem applied to the concrete
`[song "A", non-song "x", non-song "y"]` sequence, and the discard part
applied to a leading non-song row. -/
theorem C4_remark_attachment_witness :
    extract_songs (fun s => s)
      [[⟨"1", none⟩, ⟨"A", some ⟨"/a", "A"⟩⟩], [⟨"2", none⟩, ⟨"x", none⟩],
       [⟨"3", none⟩, ⟨"y", none⟩]] =
      [⟨"A", "/a", some ("x" ++ "; " ++ "y")⟩] ∧
    extract_songs (fun s => s)
      ([] ++ ([⟨"d", none⟩, ⟨"early", none⟩] : List Cell) ::
        [[⟨"1", none⟩, ⟨"A", some ⟨"/a", "A"⟩⟩]]) =
      extract_songs (fun s => s) ([] ++ [[⟨"1", none⟩, ⟨"A", some ⟨"/a", "A"⟩⟩]]) := by
  constructor
  · exact C4_remark_attachment.1 (fun s => s) ⟨"1", none⟩ ⟨"2", none⟩ ⟨"3", none⟩
      "A" "/a" "x" "y" (by decide) (by decide) (by decide)
  · exact C4_remark_attachment.2.1 (fun s => s) [] [[⟨"1", none⟩, ⟨"A", some ⟨"/a", "A"⟩⟩]]
      ⟨"d", none⟩ ⟨"early", none⟩ [] (fun r hr => absurd hr (List.not_mem_nil r)) (by decide)

theorem filterMap_relStep_all (c : String → Option Nat) (lid : Nat) :
    ∀ (songs : List SongInfo) (n : Nat),
      (∀ s ∈ songs, truthyN (c s.name) = true) →
      (enumFrom n songs).filterMap (relStep c lid) =
        (enumFrom n songs).map fun ks => (lid, (c ks.2.name).getD 0, ks.1, ks.2.remark) := by
  intro songs
  induction songs with
  | nil => intro n _; rfl
  | cons s rest ih =>
    intro n h
    have hs := h s (List.mem_cons_self s rest)
    simp only [enumFrom, List.filterMap_cons, List.map_cons]
    cases hc : c s.name with
    | none => rw [hc] at hs; simp [truthyN] at hs
    | some i =>
      rw [hc] at hs
      have hi : i ≠ 0 := by simpa [truthyN] using hs
      have hrs : relStep c lid (n, s) = some (lid, i, n, s.remark) := by
        simp [relStep, hc, hi]
      simp only [hrs, hc, Option.getD_some]
      rw [ih (n + 1) fun x hx => h x (List.mem_cons_of_mem s hx)]

theorem enumFrom_map_fst {α : Type} :
    ∀ (l : List α) (n : Nat), (enumFrom n l).map (fun p => p.1) = List.range' n l.length := by
  intro l
  induction l with
  | nil => intro n; rfl
  | cons a as ih =>
    intro n
    simp only [enumFrom, List.map_cons, List.length_cons, List.range'_succ]
    rw [ih (n + 1)]

/-- C5: whenever every extracted setlist entry of a detail page resolves to a
truthy cached identity, (1) the extracted entries are, in order, exactly the
song rows of the page (remark-only rows contribute no entry and hence consume
no position), (2) the relation rows the batch builds carry, for the entry at
0-based index `j` of the extraction, exactly the position `j + 1`, and (3) the
stored positions are therefore exactly `1, 2, …, n` for the `n` song rows. -/
theorem C5_position_fidelity (resolve : String → String) (rows : List (List Cell))
    (c : String → Option Nat) (lid : Nat)
    (h : ∀ s ∈ extract_songs resolve rows, truthyN (c s.name) = true) :
    ((extract_songs resolve rows).map fun s => (s.name, s.url)) =
      rows.filterMap (songRowEntry resolve) ∧
    relationsData c lid (extract_songs resolve rows) =
      (enumFrom 1 (extract_songs resolve rows)).map
        (fun ks => (lid, (c ks.2.name).getD 0, ks.1, ks.2.remark)) ∧
    (relationsData c lid (extract_songs resolve rows)).map (fun r => r.2.2.1) =
      List.range' 1 (extract_songs resolve rows).length := by
  refine ⟨?_, ?_, ?_⟩
  · have hf := foldl_map_nameUrl resolve rows ([], -1)
    simpa [extract_songs] using hf
  · exact filterMap_relStep_all c lid (extract_songs resolve rows) 1 h
  · rw [show relationsData c lid (extract_songs resolve rows) =
        (enumFrom 1 (extract_songs resolve rows)).filterMap (relStep c lid) from rfl,
      filterMap_relStep_all c lid (extract_songs resolve rows) 1 h, List.map_map]
    have hcomp : ((fun r : Nat × Nat × Nat × Option String => r.2.2.1) ∘
        (fun ks : Nat × SongInfo => (lid, (c ks.2.name).getD 0, ks.1, ks.2.remark))) =
        fun p : Nat × SongInfo => p.1 := rfl
    rw [hcomp]
    exact enumFrom_map_fst (extract_songs resolve rows) 1

/-- C5 witness: the theorem applied to a concrete page with song rows `A`
and `B` separated by a remark-only row — the stored positions are `1, 2`. -/
theorem C5_position_fidelity_witness :
    (relationsData (fun n => if n = "A" then some 1 else some 2) 9
      (extract_songs (fun s => s)
        [[⟨"1", none⟩, ⟨"A", some ⟨"/a", "A"⟩⟩], [⟨"2", none⟩, ⟨"note", none⟩],
         [⟨"3", none⟩, ⟨"B", some ⟨"/b", "B"⟩⟩]])).map (fun r => r.2.2.1) =
      List.range' 1
        (extract_songs (fun s => s)
          [[⟨"1", none⟩, ⟨"A", some ⟨"/a", "A"⟩⟩], [⟨"2", none⟩, ⟨"note", none⟩],
           [⟨"3", none⟩, ⟨"B", some ⟨"/b", "B"⟩⟩]]).length := by
  exact (C5_position_fidelity (fun s => s)
    [[⟨"1", none⟩, ⟨"A", some ⟨"/a", "A"⟩⟩], [⟨"2", none⟩, ⟨"note", none⟩],
     [⟨"3", none⟩, ⟨"B", some ⟨"/b", "B"⟩⟩]]
    (fun n => if n = "A" then some 1 else some 2) 9 (by decide)).2.2

/-! ## Claim C2 — the pacing delay and the `continue` skip

In the source, `time.sleep(0.5)` sits at the end of the loop body, but the
skip taken when `save_live_history` returns a falsy id is a `continue`, which
jumps straight to the next entry and *bypasses* the sleep.  The claim as
stated (delay after every entry, including the upsert_show-failure skip) is
therefore false; what holds is that the delay runs after exactly the entries
whose upsert produced a truthy id. -/

/-- The environment of the counterexample run: the show upsert of entry 0
fails, everything else succeeds. -/
def c2Env : RunEnv :=
  { resolve := fun s => s, fetch := fun _ => Except.error (),
    showFail := fun n => n == 0,
    songInsertFail := fun _ => false, songCommitFail := fun _ => false,
    batchExecFail := fun _ _ => false, batchCommitFail := fun _ => false }

/-- The two entries of the counterexample run. -/
def c2Entries : List LiveData :=
  [⟨⟨2024, 1, 1⟩, "S0", "V", none⟩, ⟨⟨2024, 1, 2⟩, "S1", "V", none⟩]

/-- C2 counterexample: in a run whose first entry is skipped because
`upsert_show` fails, the trace is
`[beginEntry 0, beginEntry 1, sleep]` — entry 1 begins with *no* sleep
anywhere before it, refuting the claim that the pacing delay is executed
after the skipped entry and before the next entry begins. -/
theorem C2_skipped_entry_gets_no_delay :
    (runFrom c2Env 0 (fun _ => none) emptyStore c2Entries).2.2 =
      [Action.beginEntry 0, Action.beginEntry 1, Action.sleep] ∧
    Action.sleep ∉
      ((runFrom c2Env 0 (fun _ => none) emptyStore c2Entries).2.2.takeWhile
        fun a => a ≠ Action.beginEntry 1) ∧
    Action.beginEntry 1 ∈ (runFrom c2Env 0 (fun _ => none) emptyStore c2Entries).2.2 := by
  refine ⟨rfl, by decide, by decide⟩

/-- C2 (amended): the trace of processing one entry is its `beginEntry`
action, then a pacing sleep exactly when that entry's `save_live_history`
returned a truthy identity (success *or* any later per-entry failure still
sleeps), then the rest of the run; an entry skipped by the `continue` on a
falsy identity is followed immediately by the next entry with no delay. -/
theorem C2_delay_iff_show_upserted (env : RunEnv) (i : Nat) (c : String → Option Nat)
    (st : Store) (ld : LiveData) (rest : List LiveData) :
    (runFrom env i c st (ld :: rest)).2.2 =
      Action.beginEntry i ::
        ((if truthyN (save_live_history (env.showFail i) st ld).1 then [Action.sleep] else []) ++
          (runFrom env (i + 1) (entryStep env i c st ld).1 (entryStep env i c st ld).2.1
            rest).2.2) ∧
    (entryStep env i c st ld).2.2 = truthyN (save_live_history (env.showFail i) st ld).1 := by
  have hflag : (entryStep env i c st ld).2.2 =
      truthyN (save_live_history (env.showFail i) st ld).1 := by
    simp only [entryStep]
    by_cases h : truthyN (save_live_history (env.showFail i) st ld).1
    · rw [if_pos h]
      by_cases hs : (get_songs_from_detail_page env.resolve env.fetch ld.url).isEmpty
      · rw [if_pos hs]; exact h.symm
      · rw [if_neg hs]; exact h.symm
    · rw [if_neg h]
      simp only [Bool.not_eq_true] at h
      exact h.symm
  constructor
  · show (runFrom env i c st (ld :: rest)).2.2 = _
    simp only [runFrom]
    rw [hflag]
  · exact hflag

/-! ## Claim C8 — detail-page faults are isolated per show -/

/-- The detail pages of the fault-isolation scenario: show 1's page lists
songs `A` and `B`, show 3's page lists song `C`, and fetching show 2's page
raises. -/
def c8Fetch : String → Except Unit (List Table) :=
  fun u =>
    if u = "u1" then
      Except.ok [⟨["楽曲名"],
        [[], [⟨"1", none⟩, ⟨"A", some ⟨"/a", "A"⟩⟩], [⟨"2", none⟩, ⟨"B", some ⟨"/b", "B"⟩⟩]]⟩]
    else if u = "u3" then
      Except.ok [⟨["楽曲名"], [[], [⟨"1", none⟩, ⟨"C", some ⟨"/c", "C"⟩⟩]]⟩]
    else Except.error ()

/-- The fault-free environment of the scenario (the only fault is the fetch
of show 2's page). -/
def c8Env : RunEnv := pureEnv (fun s => s) c8Fetch

/-- The three list entries of the scenario. -/
def c8Entries : List LiveData :=
  [⟨⟨2024, 1, 1⟩, "S1", "V1", some "u1"⟩, ⟨⟨2024, 1, 2⟩, "S2", "V2", some "u2"⟩,
   ⟨⟨2024, 1, 3⟩, "S3", "V3", some "u3"⟩]

/-- The store after running the scenario from an empty store. -/
def c8Store : Store := (run c8Env c8Entries emptyStore).2.1

/-- C8: (1) for every detail URL, a fetch/parse exception is caught inside
`get_songs_from_detail_page` and converted to the empty setlist; (2) in the
three-show scenario where the fetch of show 2's page fails, show 2 still gets
its show-level row, ends with zero association rows, while shows 1 and 3
(ids 1 and 3) hold their full setlists: positions 1 and 2 for songs `A`, `B`
under show 1 and position 1 for song `C` under show 3, all three songs having
acquired their rows. -/
theorem C8_detail_fault_isolated :
    (∀ (resolve : String → String) (fetch : String → Except Unit (List Table)) (u : String),
      fetch u = Except.error () → get_songs_from_detail_page resolve fetch (some u) = []) ∧
    c8Store.shows (⟨2024, 1, 2⟩, "S2") = some ⟨2, "V2", some "u2"⟩ ∧
    (∀ j, c8Store.assocs (2, j) = none) ∧
    c8Store.assocs (1, 1) = some ⟨1, none⟩ ∧
    c8Store.assocs (1, 2) = some ⟨2, none⟩ ∧
    c8Store.assocs (3, 3) = some ⟨1, none⟩ ∧
    c8Store.songs "A" = some ⟨1, some "/a"⟩ ∧
    c8Store.songs "B" = some ⟨2, some "/b"⟩ ∧
    c8Store.songs "C" = some ⟨3, some "/c"⟩ := by
  have hassoc : c8Store.assocs =
      setMap (setMap (setMap (fun _ => none) ((1 : Nat), (1 : Nat)) ⟨1, none⟩)
        (1, 2) ⟨2, none⟩) (3, 3) ⟨1, none⟩ := rfl
  refine ⟨?_, rfl, ?_, rfl, rfl, rfl, rfl, rfl, rfl⟩
  · intro resolve fetch u h
    simp only [get_songs_from_detail_page]
    by_cases hu : u = ""
    · rw [if_pos hu]
    · rw [if_neg hu, h]
  · intro j
    rw [hassoc]
    simp [setMap, Prod.ext_iff]

/-- C8 witness: the exception-catching part applied to the concrete fetch of
the scenario at show 2's URL. -/
theorem C8_detail_fault_isolated_witness :
    get_songs_from_detail_page (fun s => s) c8Fetch (some "u2") = [] :=
  C8_detail_fault_isolated.1 (fun s => s) c8Fetch "u2" rfl

/-! ## Claim C6 — idempotence of the whole pipeline

The proof strategy: in a fault-free run both process runs perform, on the
`shows` and `assocs` tables, the *same* sequence of constant point writes
(the identities involved are settled after the first run and stable), the
`songs` table is not written at all by the second run (every encountered name
is cached), and a sequence of constant point writes is idempotent. -/

/-- A list of point writes applied left to right (later writes win). -/
def applyWrites {α β : Type} [DecidableEq α] (ws : List (α × β)) (m : α → Option β) :
    α → Option β :=
  ws.foldl (fun acc kv => setMap acc kv.1 kv.2) m

theorem applyWrites_cons {α β : Type} [DecidableEq α] (kv : α × β) (ws : List (α × β))
    (m : α → Option β) : applyWrites (kv :: ws) m = applyWrites ws (setMap m kv.1 kv.2) := rfl

theorem applyWrites_append {α β : Type} [DecidableEq α] (ws1 ws2 : List (α × β))
    (m : α → Option β) : applyWrites (ws1 ++ ws2) m = applyWrites ws2 (applyWrites ws1 m) := by
  unfold applyWrites
  rw [List.foldl_append]

theorem applyWrites_not_mem {α β : Type} [DecidableEq α] :
    ∀ (ws : List (α × β)) (m : α → Option β) (k : α), k ∉ ws.map Prod.fst →
      applyWrites ws m k = m k := by
  intro ws
  induction ws with
  | nil => intro m k _; rfl
  | cons kv rest ih =>
    intro m k hk
    simp only [List.map_cons, List.mem_cons] at hk
    push_neg at hk
    rw [applyWrites_cons, ih _ k hk.2, setMap_other m kv.1 k kv.2 hk.1]

theorem applyWrites_congr_outside {α β : Type} [DecidableEq α] :
    ∀ (ws : List (α × β)) (m m' : α → Option β),
      (∀ k, k ∉ ws.map Prod.fst → m k = m' k) → applyWrites ws m = applyWrites ws m' := by
  intro ws
  induction ws with
  | nil =>
    intro m m' h
    funext k
    exact h k (by simp)
  | cons kv rest ih =>
    intro m m' h
    rw [applyWrites_cons, applyWrites_cons]
    refine ih _ _ ?_
    intro k hk
    by_cases hke : k = kv.1
    · subst hke
      rw [setMap_same, setMap_same]
    · rw [setMap_other _ _ _ _ hke, setMap_other _ _ _ _ hke]
      refine h k ?_
      simp only [List.map_cons, List.mem_cons]
      push_neg
      exact ⟨hke, hk⟩

theorem applyWrites_idem {α β : Type} [DecidableEq α] (ws : List (α × β)) (m : α → Option β) :
    applyWrites ws (applyWrites ws m) = applyWrites ws m :=
  applyWrites_congr_outside ws (applyWrites ws m) m fun k hk => applyWrites_not_mem ws m k hk

theorem applyWrites_mem_isSome {α β : Type} [DecidableEq α] :
    ∀ (ws : List (α × β)) (m : α → Option β) (k : α), k ∈ ws.map Prod.fst →
      (applyWrites ws m k).isSome := by
  intro ws
  induction ws with
  | nil => intro m k hk; cases hk
  | cons kv rest ih =>
    intro m k hk
    rw [applyWrites_cons]
    by_cases hr : k ∈ rest.map Prod.fst
    · exact ih _ k hr
    · simp only [List.map_cons, List.mem_cons] at hk
      rcases hk with hk | hk
      · subst hk
        rw [applyWrites_not_mem rest _ kv.1 hr, setMap_same]
        rfl
      · exact absurd hk hr

/-- The `(date, performance_name)` key of a list entry. -/
def showKey (ld : LiveData) : Date × String := (ld.date, ld.performance_name)

/-- The id the show upsert returns: the stored one on conflict, the next
serial otherwise. -/
def showIdAt (s : Store) (ld : LiveData) : Nat :=
  match s.shows (showKey ld) with
  | some r => r.id
  | none => s.nextShowId

/-- The id under which a show key is stored, `0` when absent. -/
def iotaOf (s : Store) (k : Date × String) : Nat :=
  match s.shows k with
  | some r => r.id
  | none => 0

/-- The id the song upsert statement returns. -/
def songIdAt (s : Store) (name : String) : Nat :=
  match s.songs name with
  | some r => r.id
  | none => s.nextSongId

/-- The setlist a fault-free run extracts for a list entry. -/
def songsOf (resolve : String → String) (fetch : String → Except Unit (List Table))
    (ld : LiveData) : List SongInfo :=
  get_songs_from_detail_page resolve fetch ld.url

/-- The key-value pair of one association write. -/
def assocKV (r : Nat × Nat × Nat × Option String) : (Nat × Nat) × AssocRow :=
  ((r.1, r.2.1), ⟨r.2.2.1, r.2.2.2⟩)

/-- The show-table writes of a fault-free run, given the settled id `ι` of
each key. -/
def showWrites (ι : Date × String → Nat) (es : List LiveData) :
    List ((Date × String) × ShowRow) :=
  es.map fun e => (showKey e, ⟨ι (showKey e), e.venue, e.url⟩)

/-- The association-table writes of one entry of a fault-free run, given the
settled show ids `ι` and song resolution `ρ`. -/
def assocWritesOf (resolve : String → String) (fetch : String → Except Unit (List Table))
    (ι : Date × String → Nat) (ρ : String → Option Nat) (e : LiveData) :
    List ((Nat × Nat) × AssocRow) :=
  if ι (showKey e) ≠ 0 then
    (relationsData ρ (ι (showKey e)) (songsOf resolve fetch e)).map assocKV
  else []

/-- The association-table writes of a fault-free run. -/
def assocWrites (resolve : String → String) (fetch : String → Except Unit (List Table))
    (ι : Date × String → Nat) (ρ : String → Option Nat) : List LiveData →
    List ((Nat × Nat) × AssocRow)
  | [] => []
  | e :: rest =>
    assocWritesOf resolve fetch ι ρ e ++ assocWrites resolve fetch ι ρ rest

/-- The invariant linking the song cache to the store in a fault-free run:
the cache agrees with the stored `(name → id)` view except that a row whose
id is the falsy `0` may be missing from the cache. -/
def INV2 (c : String → Option Nat) (s : Store) : Prop :=
  ∀ n, c n = (s.songs n).map (·.id) ∨ (c n = none ∧ ∃ r, s.songs n = some r ∧ r.id = 0)

theorem INV2_load (s : Store) : INV2 (load_existing_songs s) s := fun _ => Or.inl rfl

theorem INV2_songs_eq {c : String → Option Nat} {s s' : Store}
    (hsongs : s'.songs = s.songs) (h : INV2 c s) : INV2 c s' := by
  intro n
  rw [hsongs]
  exact h n

/-- Song rows persist across a fault-free run and keep their ids. -/
def SongsMono (s s' : Store) : Prop :=
  ∀ n r, s.songs n = some r → ∃ r', s'.songs n = some r' ∧ r'.id = r.id

/-- Show rows persist across a fault-free run and keep their ids. -/
def ShowsMono (s s' : Store) : Prop :=
  ∀ k r, s.shows k = some r → ∃ r', s'.shows k = some r' ∧ r'.id = r.id

theorem SongsMono_refl {s : Store} : SongsMono s s := fun n r h => ⟨r, h, rfl⟩

theorem SongsMono_trans {s1 s2 s3 : Store} (h1 : SongsMono s1 s2) (h2 : SongsMono s2 s3) :
    SongsMono s1 s3 := by
  intro n r h
  obtain ⟨r', h', hid'⟩ := h1 n r h
  obtain ⟨r'', h'', hid''⟩ := h2 n r' h'
  exact ⟨r'', h'', hid''.trans hid'⟩

theorem ShowsMono_refl {s : Store} : ShowsMono s s := fun k r h => ⟨r, h, rfl⟩

theorem ShowsMono_trans {s1 s2 s3 : Store} (h1 : ShowsMono s1 s2) (h2 : ShowsMono s2 s3) :
    ShowsMono s1 s3 := by
  intro k r h
  obtain ⟨r', h', hid'⟩ := h1 k r h
  obtain ⟨r'', h'', hid''⟩ := h2 k r' h'
  exact ⟨r'', h'', hid''.trans hid'⟩

/-! ### Effect of the individual persistence operations (fault-free) -/

theorem upsertShow_fst (s : Store) (ld : LiveData) : (upsertShow s ld).1 = showIdAt s ld := by
  unfold upsertShow showIdAt showKey
  cases h : s.shows (ld.date, ld.performance_name) <;> simp [h]

theorem upsertShow_shows (s : Store) (ld : LiveData) :
    (upsertShow s ld).2.shows =
      setMap s.shows (showKey ld) ⟨showIdAt s ld, ld.venue, ld.url⟩ := by
  unfold upsertShow showIdAt showKey
  cases h : s.shows (ld.date, ld.performance_name) <;> simp [h]

theorem upsertShow_rest (s : Store) (ld : LiveData) :
    (upsertShow s ld).2.songs = s.songs ∧ (upsertShow s ld).2.assocs = s.assocs ∧
    (upsertShow s ld).2.nextSongId = s.nextSongId := by
  unfold upsertShow
  cases h : s.shows (ld.date, ld.performance_name) <;> simp [h]

theorem upsertShow_showsMono (s : Store) (ld : LiveData) : ShowsMono s (upsertShow s ld).2 := by
  intro k r h
  rw [upsertShow_shows]
  by_cases hk : k = showKey ld
  · subst hk
    refine ⟨⟨showIdAt s ld, ld.venue, ld.url⟩, setMap_same _ _ _, ?_⟩
    unfold showIdAt
    rw [h]
  · exact ⟨r, by rw [setMap_other _ _ _ _ hk]; exact h, rfl⟩

theorem songInsertTxn_fst (s : Store) (name : String) (url : Option String) :
    (songInsertTxn s name url).1 = songIdAt s name := by
  unfold songInsertTxn songIdAt
  cases h : s.songs name <;> simp [h]

theorem songInsertTxn_songs (s : Store) (name : String) (url : Option String) :
    (songInsertTxn s name url).2.songs = setMap s.songs name ⟨songIdAt s name, url⟩ := by
  unfold songInsertTxn songIdAt
  cases h : s.songs name <;> simp [h]

theorem songInsertTxn_rest (s : Store) (name : String) (url : Option String) :
    (songInsertTxn s name url).2.shows = s.shows ∧
    (songInsertTxn s name url).2.assocs = s.assocs ∧
    (songInsertTxn s name url).2.nextShowId = s.nextShowId := by
  unfold songInsertTxn
  cases h : s.songs name <;> simp [h]

theorem save_song_miss (c : String → Option Nat) (s : Store) (name : String)
    (url : Option String) (h : c name = none) :
    save_song false false c s name url =
      (some (songInsertTxn s name url).1,
       (if (songInsertTxn s name url).1 ≠ 0 then setMap c name (songInsertTxn s name url).1
        else c),
       (songInsertTxn s name url).2) := by
  simp [save_song, h]

theorem save_song_miss_inv (c : String → Option Nat) (s : Store) (name : String)
    (url : Option String) (hmiss : c name = none) (hinv : INV2 c s) :
    INV2 (save_song false false c s name url).2.1 (save_song false false c s name url).2.2 := by
  rw [save_song_miss c s name url hmiss]
  dsimp only
  intro n
  by_cases hn : n = name
  · subst hn
    rw [songInsertTxn_songs, songInsertTxn_fst, setMap_same]
    by_cases hz : songIdAt s n ≠ 0
    · left
      show (if songIdAt s n ≠ 0 then setMap c n (songIdAt s n) else c) n = _
      rw [if_pos hz, setMap_same]
      rfl
    · right
      constructor
      · show (if songIdAt s n ≠ 0 then setMap c n (songIdAt s n) else c) n = none
        rw [if_neg hz]
        exact hmiss
      · push_neg at hz
        exact ⟨⟨songIdAt s n, url⟩, rfl, hz⟩
  · have hc : (if (songInsertTxn s name url).1 ≠ 0 then
        setMap c name (songInsertTxn s name url).1 else c) n = c n := by
      split
      · exact setMap_other _ _ _ _ hn
      · rfl
    show _ ∨ _
    rw [hc, songInsertTxn_songs, setMap_other _ _ _ _ hn]
    exact hinv n

theorem save_song_miss_songsMono (c : String → Option Nat) (s : Store) (name : String)
    (url : Option String) (hmiss : c name = none) :
    SongsMono s (save_song false false c s name url).2.2 := by
  rw [save_song_miss c s name url hmiss]
  intro n r h
  rw [songInsertTxn_songs]
  by_cases hn : n = name
  · subst hn
    refine ⟨⟨songIdAt s n, url⟩, setMap_same _ _ _, ?_⟩
    unfold songIdAt
    rw [h]
  · exact ⟨r, by rw [setMap_other _ _ _ _ hn]; exact h, rfl⟩

/-! ### Effect of the song save loop (fault-free) -/

theorem saveSongsLoop_allcached (insF comF : String → Bool) :
    ∀ (songs : List SongInfo) (c : String → Option Nat) (st : Store),
      (∀ x ∈ songs, (c x.name).isSome) → saveSongsLoop insF comF c st songs = (c, st) := by
  intro songs
  induction songs with
  | nil => intro c st _; rfl
  | cons x rest ih =>
    intro c st h
    have hx := h x (List.mem_cons_self x rest)
    simp only [saveSongsLoop, hx, if_pos]
    exact ih c st fun y hy => h y (List.mem_cons_of_mem x hy)

theorem saveSongsLoop_spec :
    ∀ (songs : List SongInfo) (c : String → Option Nat) (s : Store), INV2 c s →
      INV2 (saveSongsLoop (fun _ => false) (fun _ => false) c s songs).1
        (saveSongsLoop (fun _ => false) (fun _ => false) c s songs).2 ∧
      SongsMono s (saveSongsLoop (fun _ => false) (fun _ => false) c s songs).2 ∧
      (saveSongsLoop (fun _ => false) (fun _ => false) c s songs).2.shows = s.shows ∧
      (saveSongsLoop (fun _ => false) (fun _ => false) c s songs).2.assocs = s.assocs ∧
      (∀ x ∈ songs,
        ((saveSongsLoop (fun _ => false) (fun _ => false) c s songs).2.songs x.name).isSome) := by
  intro songs
  induction songs with
  | nil =>
    intro c s hinv
    exact ⟨hinv, SongsMono_refl, rfl, rfl, fun x hx => absurd hx (List.not_mem_nil x)⟩
  | cons x rest ih =>
    intro c s hinv
    by_cases hx : (c x.name).isSome
    · have hrow : (s.songs x.name).isSome := by
        rcases hinv x.name with h | ⟨h, _⟩
        · rw [h] at hx
          simpa [Option.isSome_map] using hx
        · rw [h] at hx
          cases hx
      have hstep : saveSongsLoop (fun _ => false) (fun _ => false) c s (x :: rest) =
          saveSongsLoop (fun _ => false) (fun _ => false) c s rest := by
        simp [saveSongsLoop, hx]
      rw [hstep]
      obtain ⟨hinv', hmono', hshows', hassocs', hcov'⟩ := ih c s hinv
      refine ⟨hinv', hmono', hshows', hassocs', ?_⟩
      intro y hy
      rcases List.mem_cons.mp hy with hy | hy
      · subst hy
        obtain ⟨r, hr⟩ := Option.isSome_iff_exists.mp hrow
        obtain ⟨r', hr', _⟩ := hmono' y.name r hr
        rw [hr']
        rfl
      · exact hcov' y hy
    · have hmiss : c x.name = none := Option.not_isSome_iff_eq_none.mp hx
      have hstep : saveSongsLoop (fun _ => false) (fun _ => false) c s (x :: rest) =
          saveSongsLoop (fun _ => false) (fun _ => false)
            (save_song false false c s x.name (some x.url)).2.1
            (save_song false false c s x.name (some x.url)).2.2 rest := by
        simp [saveSongsLoop, hx]
      rw [hstep]
      have hinv1 := save_song_miss_inv c s x.name (some x.url) hmiss hinv
      have hmono1 := save_song_miss_songsMono c s x.name (some x.url) hmiss
      obtain ⟨hinv', hmono', hshows', hassocs', hcov'⟩ :=
        ih (save_song false false c s x.name (some x.url)).2.1
          (save_song false false c s x.name (some x.url)).2.2 hinv1
      have hrest : (save_song false false c s x.name (some x.url)).2.2.shows = s.shows ∧
          (save_song false false c s x.name (some x.url)).2.2.assocs = s.assocs := by
        rw [save_song_miss c s x.name (some x.url) hmiss]
        exact ⟨(songInsertTxn_rest s x.name (some x.url)).1,
          (songInsertTxn_rest s x.name (some x.url)).2.1⟩
      refine ⟨hinv', SongsMono_trans hmono1 hmono', ?_, ?_, ?_⟩
      · rw [hshows', hrest.1]
      · rw [hassocs', hrest.2]
      · intro y hy
        rcases List.mem_cons.mp hy with hy | hy
        · subst hy
          have hxrow :
              ((save_song false false c s y.name (some y.url)).2.2.songs y.name).isSome := by
            rw [save_song_miss c s y.name (some y.url) hmiss, songInsertTxn_songs, setMap_same]
            rfl
          obtain ⟨r, hr⟩ := Option.isSome_iff_exists.mp hxrow
          obtain ⟨r', hr', _⟩ := hmono' y.name r hr
          rw [hr']
          rfl
        · exact hcov' y hy

/-! ### Effect of the association batch (fault-free) -/

theorem foldl_applyAssoc (rels : List (Nat × Nat × Nat × Option String)) :
    ∀ s : Store, rels.foldl applyAssoc s =
      { s with assocs := applyWrites (rels.map assocKV) s.assocs } := by
  induction rels with
  | nil => intro s; rfl
  | cons r rs ih =>
    intro s
    simp only [List.foldl_cons, List.map_cons, applyWrites_cons]
    rw [ih (applyAssoc s r)]
    rfl

theorem batch_effect (c : String → Option Nat) (s : Store) (lid : Nat)
    (songs : List SongInfo) :
    save_live_song_relations_batch (fun _ => false) false c s lid songs =
      { s with assocs := applyWrites ((relationsData c lid songs).map assocKV) s.assocs } := by
  unfold save_live_song_relations_batch
  by_cases hs : songs.isEmpty
  · rw [if_pos hs]
    have : songs = [] := List.isEmpty_iff.mp hs
    subst this
    rfl
  · rw [if_neg hs]
    by_cases hr : (relationsData c lid songs).isEmpty
    · have : relationsData c lid songs = [] := List.isEmpty_iff.mp hr
      simp only [hr, if_pos, this]
      rfl
    · simp only [hr, Bool.false_eq_true, if_false, execManyAux_nofail]
      exact foldl_applyAssoc (relationsData c lid songs) s

/-- `relationsData` only looks the cache up at the names of the given
entries. -/
theorem relationsData_congr_names (c c' : String → Option Nat) (lid : Nat) :
    ∀ (songs : List SongInfo) (n : Nat), (∀ x ∈ songs, c x.name = c' x.name) →
      (enumFrom n songs).filterMap (relStep c lid) =
        (enumFrom n songs).filterMap (relStep c' lid) := by
  intro songs
  induction songs with
  | nil => intro n _; rfl
  | cons x rest ih =>
    intro n h
    have hx := h x (List.mem_cons_self x rest)
    simp only [enumFrom, List.filterMap_cons]
    have hstep : relStep c lid (n, x) = relStep c' lid (n, x) := by
      unfold relStep
      rw [show (n, x).2 = x from rfl, hx]
    rw [hstep, ih (n + 1) fun y hy => h y (List.mem_cons_of_mem x hy)]

theorem batch_songs (c : String → Option Nat) (s : Store) (lid : Nat) (songs : List SongInfo) :
    (save_live_song_relations_batch (fun _ => false) false c s lid songs).songs = s.songs := by
  rw [batch_effect]

theorem batch_shows (c : String → Option Nat) (s : Store) (lid : Nat) (songs : List SongInfo) :
    (save_live_song_relations_batch (fun _ => false) false c s lid songs).shows = s.shows := by
  rw [batch_effect]

theorem batch_assocs (c : String → Option Nat) (s : Store) (lid : Nat) (songs : List SongInfo) :
    (save_live_song_relations_batch (fun _ => false) false c s lid songs).assocs =
      applyWrites ((relationsData c lid songs).map assocKV) s.assocs := by
  rw [batch_effect]

theorem load_songs_congr {s s' : Store} (h : s'.songs = s.songs) :
    load_existing_songs s' = load_existing_songs s := by
  unfold load_existing_songs
  rw [h]

/-- Truthy resolution of a cached id: the value the batch's filter keeps. -/
def resT (c : String → Option Nat) (n : String) : Option Nat :=
  match c n with
  | some v => if v ≠ 0 then some v else none
  | none => none

theorem relStep_resT (c : String → Option Nat) (lid : Nat) (ks : Nat × SongInfo) :
    relStep c lid ks = (resT c ks.2.name).map fun i => (lid, i, ks.1, ks.2.remark) := by
  unfold relStep resT
  cases hc : c ks.2.name with
  | none => rfl
  | some v => by_cases hv : v ≠ 0 <;> simp [hv]

theorem relationsData_congr_resT (c c' : String → Option Nat) (lid : Nat) :
    ∀ (songs : List SongInfo) (n : Nat), (∀ x ∈ songs, resT c x.name = resT c' x.name) →
      (enumFrom n songs).filterMap (relStep c lid) =
        (enumFrom n songs).filterMap (relStep c' lid) := by
  intro songs
  induction songs with
  | nil => intro n _; rfl
  | cons x rest ih =>
    intro n h
    have hx := h x (List.mem_cons_self x rest)
    simp only [enumFrom, List.filterMap_cons]
    have hstep : relStep c lid (n, x) = relStep c' lid (n, x) := by
      rw [relStep_resT, relStep_resT]
      rw [show (n, x).2 = x from rfl, hx]
    rw [hstep, ih (n + 1) fun y hy => h y (List.mem_cons_of_mem x hy)]

theorem INV2_resT {c : String → Option Nat} {s : Store} (hinv : INV2 c s) (n : String) :
    resT c n = resT (load_existing_songs s) n := by
  rcases hinv n with h | ⟨hnone, r, hr, hid⟩
  · unfold resT
    rw [h]
    rfl
  · unfold resT
    rw [hnone, show load_existing_songs s n = (s.songs n).map (·.id) from rfl, hr]
    simp [hid]

theorem SongsMono_of_eq {s s' : Store} (h : s'.songs = s.songs) : SongsMono s s' :=
  fun n r hr => ⟨r, by rw [h]; exact hr, rfl⟩

theorem ShowsMono_of_eq {s s' : Store} (h : s'.shows = s.shows) : ShowsMono s s' :=
  fun k r hr => ⟨r, by rw [h]; exact hr, rfl⟩

/-! ### Effect of one loop iteration of `run` (fault-free) -/

theorem entryStep_eq_skip (r : String → String) (f : String → Except Unit (List Table))
    (i : Nat) (c : String → Option Nat) (s : Store) (ld : LiveData)
    (hlid : showIdAt s ld = 0) :
    entryStep (pureEnv r f) i c s ld = (c, (upsertShow s ld).2, false) := by
  simp [entryStep, pureEnv, save_live_history, truthyN, upsertShow_fst, hlid]

theorem entryStep_eq_empty (r : String → String) (f : String → Except Unit (List Table))
    (i : Nat) (c : String → Option Nat) (s : Store) (ld : LiveData)
    (hlid : showIdAt s ld ≠ 0) (hse : songsOf r f ld = []) :
    entryStep (pureEnv r f) i c s ld = (c, (upsertShow s ld).2, true) := by
  have hse' : get_songs_from_detail_page r f ld.url = [] := hse
  simp [entryStep, pureEnv, save_live_history, truthyN, upsertShow_fst, hlid, hse']

theorem entryStep_eq_run (r : String → String) (f : String → Except Unit (List Table))
    (i : Nat) (c : String → Option Nat) (s : Store) (ld : LiveData)
    (hlid : showIdAt s ld ≠ 0) (hse : songsOf r f ld ≠ []) :
    entryStep (pureEnv r f) i c s ld =
      ((saveSongsLoop (fun _ => false) (fun _ => false) c (upsertShow s ld).2
          (songsOf r f ld)).1,
       save_live_song_relations_batch (fun _ => false) false
         (saveSongsLoop (fun _ => false) (fun _ => false) c (upsertShow s ld).2
           (songsOf r f ld)).1
         (saveSongsLoop (fun _ => false) (fun _ => false) c (upsertShow s ld).2
           (songsOf r f ld)).2
         (showIdAt s ld) (songsOf r f ld), true) := by
  have hse' : get_songs_from_detail_page r f ld.url ≠ [] := hse
  simp [entryStep, pureEnv, save_live_history, truthyN, upsertShow_fst, hlid, hse', songsOf]

theorem entryStep_spec (r : String → String) (f : String → Except Unit (List Table))
    (i : Nat) (c : String → Option Nat) (s : Store) (ld : LiveData) (hinv : INV2 c s) :
    INV2 (entryStep (pureEnv r f) i c s ld).1 (entryStep (pureEnv r f) i c s ld).2.1 ∧
    SongsMono s (entryStep (pureEnv r f) i c s ld).2.1 ∧
    ShowsMono s (entryStep (pureEnv r f) i c s ld).2.1 ∧
    (entryStep (pureEnv r f) i c s ld).2.1.shows =
      setMap s.shows (showKey ld) ⟨showIdAt s ld, ld.venue, ld.url⟩ ∧
    (entryStep (pureEnv r f) i c s ld).2.1.assocs =
      applyWrites
        (if showIdAt s ld ≠ 0 then
          (relationsData (load_existing_songs (entryStep (pureEnv r f) i c s ld).2.1)
            (showIdAt s ld) (songsOf r f ld)).map assocKV
         else []) s.assocs ∧
    (showIdAt s ld ≠ 0 → ∀ x ∈ songsOf r f ld,
      ((entryStep (pureEnv r f) i c s ld).2.1.songs x.name).isSome) := by
  by_cases hlid : showIdAt s ld = 0
  · rw [entryStep_eq_skip r f i c s ld hlid]
    refine ⟨INV2_songs_eq (upsertShow_rest s ld).1 hinv,
      SongsMono_of_eq (upsertShow_rest s ld).1, upsertShow_showsMono s ld,
      upsertShow_shows s ld, ?_, fun h => absurd hlid h⟩
    rw [if_neg (by simpa using hlid)]
    show (upsertShow s ld).2.assocs = applyWrites [] s.assocs
    exact (upsertShow_rest s ld).2.1
  · by_cases hse : songsOf r f ld = []
    · rw [entryStep_eq_empty r f i c s ld hlid hse]
      refine ⟨INV2_songs_eq (upsertShow_rest s ld).1 hinv,
        SongsMono_of_eq (upsertShow_rest s ld).1, upsertShow_showsMono s ld,
        upsertShow_shows s ld, ?_, ?_⟩
      · rw [hse, if_pos hlid]
        show (upsertShow s ld).2.assocs =
          applyWrites ((relationsData _ (showIdAt s ld) []).map assocKV) s.assocs
        exact (upsertShow_rest s ld).2.1
      · intro _ x hx
        rw [hse] at hx
        exact absurd hx (List.not_mem_nil x)
    · rw [entryStep_eq_run r f i c s ld hlid hse]
      dsimp only
      have hinv1 : INV2 c (upsertShow s ld).2 := INV2_songs_eq (upsertShow_rest s ld).1 hinv
      obtain ⟨hinvq, hmonoq, hshowsq, hassocsq, hcovq⟩ :=
        saveSongsLoop_spec (songsOf r f ld) c (upsertShow s ld).2 hinv1
      refine ⟨?_, ?_, ?_, ?_, ?_, ?_⟩
      · exact INV2_songs_eq (batch_songs _ _ _ _) hinvq
      · exact SongsMono_trans (SongsMono_of_eq (upsertShow_rest s ld).1)
          (SongsMono_trans hmonoq (SongsMono_of_eq (batch_songs _ _ _ _)))
      · exact ShowsMono_trans (upsertShow_showsMono s ld)
          (ShowsMono_of_eq (by rw [batch_shows, hshowsq]))
      · rw [batch_shows, hshowsq, upsertShow_shows]
      · rw [if_pos hlid, load_songs_congr (batch_songs _ _ _ _), batch_assocs, hassocsq,
          (upsertShow_rest s ld).2.1]
        have hcongr : relationsData
            (saveSongsLoop (fun _ => false) (fun _ => false) c (upsertShow s ld).2
              (songsOf r f ld)).1 (showIdAt s ld) (songsOf r f ld) =
            relationsData (load_existing_songs
              (saveSongsLoop (fun _ => false) (fun _ => false) c (upsertShow s ld).2
                (songsOf r f ld)).2) (showIdAt s ld) (songsOf r f ld) := by
          unfold relationsData
          exact relationsData_congr_resT _ _ (showIdAt s ld) (songsOf r f ld) 1
            fun x _ => INV2_resT hinvq x.name
        rw [hcongr]
      · intro _ x hx
        rw [batch_songs]
        exact hcovq x hx

theorem relationsData_congr (c c' : String → Option Nat) (lid : Nat) (songs : List SongInfo)
    (h : ∀ x ∈ songs, c x.name = c' x.name) :
    relationsData c lid songs = relationsData c' lid songs := by
  unfold relationsData
  exact relationsData_congr_names c c' lid songs 1 h

theorem iotaOf_eq {s : Store} {k : Date × String} {rr : ShowRow} (h : s.shows k = some rr) :
    iotaOf s k = rr.id := by
  unfold iotaOf
  rw [h]

/-! ### Characterization of a fault-free run as a sequence of point writes -/

theorem runFrom_char (r : String → String) (f : String → Except Unit (List Table)) :
    ∀ (es : List LiveData) (i : Nat) (c : String → Option Nat) (s : Store), INV2 c s →
      INV2 (runFrom (pureEnv r f) i c s es).1 (runFrom (pureEnv r f) i c s es).2.1 ∧
      SongsMono s (runFrom (pureEnv r f) i c s es).2.1 ∧
      ShowsMono s (runFrom (pureEnv r f) i c s es).2.1 ∧
      (runFrom (pureEnv r f) i c s es).2.1.shows =
        applyWrites (showWrites (iotaOf (runFrom (pureEnv r f) i c s es).2.1) es) s.shows ∧
      (runFrom (pureEnv r f) i c s es).2.1.assocs =
        applyWrites (assocWrites r f (iotaOf (runFrom (pureEnv r f) i c s es).2.1)
          (load_existing_songs (runFrom (pureEnv r f) i c s es).2.1) es) s.assocs ∧
      (∀ e ∈ es, iotaOf (runFrom (pureEnv r f) i c s es).2.1 (showKey e) ≠ 0 →
        ∀ x ∈ songsOf r f e, ((runFrom (pureEnv r f) i c s es).2.1.songs x.name).isSome) ∧
      (∀ e ∈ es, ((runFrom (pureEnv r f) i c s es).2.1.shows (showKey e)).isSome) := by
  intro es
  induction es with
  | nil =>
    intro i c s hinv
    exact ⟨hinv, SongsMono_refl, ShowsMono_refl, rfl, rfl,
      fun e he => absurd he (List.not_mem_nil e), fun e he => absurd he (List.not_mem_nil e)⟩
  | cons ld rest ih =>
    intro i c s hinv
    obtain ⟨hie, hsme, hshme, hshe, hase, hcove⟩ := entryStep_spec r f i c s ld hinv
    obtain ⟨hiF, hsmF, hshmF, hshF, hasF, hcovF, hkeyF⟩ :=
      ih (i + 1) (entryStep (pureEnv r f) i c s ld).1 (entryStep (pureEnv r f) i c s ld).2.1 hie
    have hproj1 : (runFrom (pureEnv r f) i c s (ld :: rest)).1 =
        (runFrom (pureEnv r f) (i + 1) (entryStep (pureEnv r f) i c s ld).1
          (entryStep (pureEnv r f) i c s ld).2.1 rest).1 := rfl
    have hproj : (runFrom (pureEnv r f) i c s (ld :: rest)).2.1 =
        (runFrom (pureEnv r f) (i + 1) (entryStep (pureEnv r f) i c s ld).1
          (entryStep (pureEnv r f) i c s ld).2.1 rest).2.1 := rfl
    rw [hproj1, hproj]
    have hkeyE : (entryStep (pureEnv r f) i c s ld).2.1.shows (showKey ld) =
        some ⟨showIdAt s ld, ld.venue, ld.url⟩ := by
      rw [hshe]
      exact setMap_same _ _ _
    have hlidF : iotaOf (runFrom (pureEnv r f) (i + 1) (entryStep (pureEnv r f) i c s ld).1
        (entryStep (pureEnv r f) i c s ld).2.1 rest).2.1 (showKey ld) = showIdAt s ld := by
      obtain ⟨r', hr', hid⟩ := hshmF (showKey ld) _ hkeyE
      rw [iotaOf_eq hr', hid]
    refine ⟨hiF, SongsMono_trans hsme hsmF, ShowsMono_trans hshme hshmF, ?_, ?_, ?_, ?_⟩
    · show _ = applyWrites (showWrites _ rest)
        (setMap s.shows (showKey ld)
          ⟨iotaOf (runFrom (pureEnv r f) (i + 1) (entryStep (pureEnv r f) i c s ld).1
            (entryStep (pureEnv r f) i c s ld).2.1 rest).2.1 (showKey ld), ld.venue, ld.url⟩)
      rw [hlidF, ← hshe]
      exact hshF
    · have hsplit : applyWrites (assocWrites r f
          (iotaOf (runFrom (pureEnv r f) (i + 1) (entryStep (pureEnv r f) i c s ld).1
            (entryStep (pureEnv r f) i c s ld).2.1 rest).2.1)
          (load_existing_songs (runFrom (pureEnv r f) (i + 1)
            (entryStep (pureEnv r f) i c s ld).1
            (entryStep (pureEnv r f) i c s ld).2.1 rest).2.1) (ld :: rest)) s.assocs =
          applyWrites (assocWrites r f
            (iotaOf (runFrom (pureEnv r f) (i + 1) (entryStep (pureEnv r f) i c s ld).1
              (entryStep (pureEnv r f) i c s ld).2.1 rest).2.1)
            (load_existing_songs (runFrom (pureEnv r f) (i + 1)
              (entryStep (pureEnv r f) i c s ld).1
              (entryStep (pureEnv r f) i c s ld).2.1 rest).2.1) rest)
            (applyWrites (assocWritesOf r f
              (iotaOf (runFrom (pureEnv r f) (i + 1) (entryStep (pureEnv r f) i c s ld).1
                (entryStep (pureEnv r f) i c s ld).2.1 rest).2.1)
              (load_existing_songs (runFrom (pureEnv r f) (i + 1)
                (entryStep (pureEnv r f) i c s ld).1
                (entryStep (pureEnv r f) i c s ld).2.1 rest).2.1) ld) s.assocs) :=
        applyWrites_append _ _ _
      rw [hsplit]
      have hwof : assocWritesOf r f
          (iotaOf (runFrom (pureEnv r f) (i + 1) (entryStep (pureEnv r f) i c s ld).1
            (entryStep (pureEnv r f) i c s ld).2.1 rest).2.1)
          (load_existing_songs (runFrom (pureEnv r f) (i + 1)
            (entryStep (pureEnv r f) i c s ld).1
            (entryStep (pureEnv r f) i c s ld).2.1 rest).2.1) ld =
          (if showIdAt s ld ≠ 0 then
            (relationsData (load_existing_songs (entryStep (pureEnv r f) i c s ld).2.1)
              (showIdAt s ld) (songsOf r f ld)).map assocKV
           else []) := by
        unfold assocWritesOf
        rw [hlidF]
        by_cases hz : showIdAt s ld ≠ 0
        · rw [if_pos hz, if_pos hz]
          congr 1
          refine relationsData_congr _ _ (showIdAt s ld) (songsOf r f ld) ?_
          intro x hx
          obtain ⟨rr, hrr⟩ := Option.isSome_iff_exists.mp (hcove hz x hx)
          obtain ⟨rr', hrr', hid⟩ := hsmF x.name rr hrr
          show ((runFrom (pureEnv r f) (i + 1) (entryStep (pureEnv r f) i c s ld).1
            (entryStep (pureEnv r f) i c s ld).2.1 rest).2.1.songs x.name).map (·.id) =
            ((entryStep (pureEnv r f) i c s ld).2.1.songs x.name).map (·.id)
          rw [hrr, hrr']
          show some rr'.id = some rr.id
          rw [hid]
        · rw [if_neg hz, if_neg hz]
      rw [hwof, ← hase]
      exact hasF
    · intro e he
      rcases List.mem_cons.mp he with he | he
      · subst he
        intro hnz x hx
        rw [hlidF] at hnz
        obtain ⟨rr, hrr⟩ := Option.isSome_iff_exists.mp (hcove hnz x hx)
        obtain ⟨rr', hrr', _⟩ := hsmF x.name rr hrr
        rw [hrr']
        rfl
      · exact hcovF e he
    · intro e he
      rcases List.mem_cons.mp he with he | he
      · subst he
        obtain ⟨r', hr', _⟩ := hshmF (showKey e) _ hkeyE
        rw [hr']
        rfl
      · exact hkeyF e he

theorem iotaOf_congr {s s' : Store} (h : s'.shows = s.shows) : iotaOf s' = iotaOf s := by
  funext k
  unfold iotaOf
  rw [h]

theorem iotaOf_upsert_stable (s : Store) (ld : LiveData) (k : Date × String)
    (h : (s.shows k).isSome) : iotaOf (upsertShow s ld).2 k = iotaOf s k := by
  obtain ⟨rr, hrr⟩ := Option.isSome_iff_exists.mp h
  by_cases hk : k = showKey ld
  · subst hk
    have hsid : showIdAt s ld = rr.id := by
      unfold showIdAt
      rw [hrr]
    unfold iotaOf
    rw [upsertShow_shows, setMap_same, hrr, hsid]
  · unfold iotaOf
    rw [upsertShow_shows, setMap_other _ _ _ _ hk]

theorem upsert_shows_isSome (s : Store) (ld : LiveData) (k : Date × String)
    (h : (s.shows k).isSome) : ((upsertShow s ld).2.shows k).isSome := by
  rw [upsertShow_shows]
  by_cases hk : k = showKey ld
  · subst hk
    rw [setMap_same]
    rfl
  · rw [setMap_other _ _ _ _ hk]
    exact h

/-- A fault-free run against a store that already holds every show key, whose
cache covers every setlist name of the entries that will not be skipped,
neither touches the cache nor writes any song row. -/
theorem runFrom_saturated (r : String → String) (f : String → Except Unit (List Table)) :
    ∀ (es : List LiveData) (i : Nat) (c : String → Option Nat) (s : Store),
      (∀ e ∈ es, (s.shows (showKey e)).isSome) →
      (∀ e ∈ es, iotaOf s (showKey e) ≠ 0 → ∀ x ∈ songsOf r f e, (c x.name).isSome) →
      (runFrom (pureEnv r f) i c s es).1 = c ∧
      (runFrom (pureEnv r f) i c s es).2.1.songs = s.songs := by
  intro es
  induction es with
  | nil => intro i c s _ _; exact ⟨rfl, rfl⟩
  | cons ld rest ih =>
    intro i c s hkeys hcov
    have hkld := hkeys ld (List.mem_cons_self ld rest)
    obtain ⟨rr, hrr⟩ := Option.isSome_iff_exists.mp hkld
    have hsid : showIdAt s ld = iotaOf s (showKey ld) := by
      unfold showIdAt iotaOf
      rw [hrr]
    have hproj1 : (runFrom (pureEnv r f) i c s (ld :: rest)).1 =
        (runFrom (pureEnv r f) (i + 1) (entryStep (pureEnv r f) i c s ld).1
          (entryStep (pureEnv r f) i c s ld).2.1 rest).1 := rfl
    have hproj : (runFrom (pureEnv r f) i c s (ld :: rest)).2.1 =
        (runFrom (pureEnv r f) (i + 1) (entryStep (pureEnv r f) i c s ld).1
          (entryStep (pureEnv r f) i c s ld).2.1 rest).2.1 := rfl
    rw [hproj1, hproj]
    have hrest : ∀ (s' : Store), s'.shows = (upsertShow s ld).2.shows → s'.songs = s.songs →
        (runFrom (pureEnv r f) (i + 1) c s' rest).1 = c ∧
        (runFrom (pureEnv r f) (i + 1) c s' rest).2.1.songs = s.songs := by
      intro s' hsh hso
      have hkeys' : ∀ e ∈ rest, (s'.shows (showKey e)).isSome := by
        intro e he
        rw [hsh]
        exact upsert_shows_isSome s ld (showKey e) (hkeys e (List.mem_cons_of_mem ld he))
      have hiota' : ∀ e ∈ rest, iotaOf s' (showKey e) = iotaOf s (showKey e) := by
        intro e he
        have h1 : iotaOf s' (showKey e) = iotaOf (upsertShow s ld).2 (showKey e) := by
          unfold iotaOf
          rw [hsh]
        rw [h1]
        exact iotaOf_upsert_stable s ld (showKey e) (hkeys e (List.mem_cons_of_mem ld he))
      have hcov' : ∀ e ∈ rest, iotaOf s' (showKey e) ≠ 0 →
          ∀ x ∈ songsOf r f e, (c x.name).isSome := by
        intro e he hnz
        rw [hiota' e he] at hnz
        exact hcov e (List.mem_cons_of_mem ld he) hnz
      obtain ⟨h1, h2⟩ := ih (i + 1) c s' hkeys' hcov'
      exact ⟨h1, by rw [h2, hso]⟩
    by_cases hz : iotaOf s (showKey ld) = 0
    · have hstep := entryStep_eq_skip r f i c s ld (by rw [hsid]; exact hz)
      rw [hstep]
      exact hrest (upsertShow s ld).2 rfl (upsertShow_rest s ld).1
    · by_cases hse : songsOf r f ld = []
      · have hstep := entryStep_eq_empty r f i c s ld (by rw [hsid]; exact hz) hse
        rw [hstep]
        exact hrest (upsertShow s ld).2 rfl (upsertShow_rest s ld).1
      · have hall : ∀ x ∈ songsOf r f ld, (c x.name).isSome :=
          hcov ld (List.mem_cons_self ld rest) (by rw [← hsid] at hz; exact fun h => hz (hsid ▸ h))
        have hq : saveSongsLoop (fun _ => false) (fun _ => false) c (upsertShow s ld).2
            (songsOf r f ld) = (c, (upsertShow s ld).2) :=
          saveSongsLoop_allcached (fun _ => false) (fun _ => false) (songsOf r f ld) c
            (upsertShow s ld).2 hall
        have hstep := entryStep_eq_run r f i c s ld (by rw [hsid]; exact hz) hse
        rw [hq] at hstep
        rw [hstep]
        refine hrest _ ?_ ?_
        · exact batch_shows _ _ _ _
        · rw [batch_songs]
          exact (upsertShow_rest s ld).1
theorem showWrites_congr (ι ι' : Date × String → Nat) :
    ∀ es : List LiveData, (∀ e ∈ es, ι (showKey e) = ι' (showKey e)) →
      showWrites ι es = showWrites ι' es := by
  intro es
  induction es with
  | nil => intro _; rfl
  | cons e rest ih =>
    intro h
    unfold showWrites
    simp only [List.map_cons]
    rw [h e (List.mem_cons_self e rest)]
    have := ih fun x hx => h x (List.mem_cons_of_mem e hx)
    unfold showWrites at this
    rw [this]

theorem assocWrites_congr (r : String → String) (f : String → Except Unit (List Table))
    (ι ι' : Date × String → Nat) (ρ : String → Option Nat) :
    ∀ es : List LiveData, (∀ e ∈ es, ι (showKey e) = ι' (showKey e)) →
      assocWrites r f ι ρ es = assocWrites r f ι' ρ es := by
  intro es
  induction es with
  | nil => intro _; rfl
  | cons e rest ih =>
    intro h
    show assocWritesOf r f ι ρ e ++ assocWrites r f ι ρ rest = _
    rw [ih fun x hx => h x (List.mem_cons_of_mem e hx)]
    have hof : assocWritesOf r f ι ρ e = assocWritesOf r f ι' ρ e := by
      unfold assocWritesOf
      rw [h e (List.mem_cons_self e rest)]
    rw [hof]
    rfl

/-- C6: running the whole pipeline twice over byte-identical source pages
(the same parsed list page and the same detail-fetch results) leaves the
`shows`, `songs` and `assocs` tables after the second run exactly equal to
their contents after the first run, for every starting store: the repeat run
creates no additional shows, songs or associations and changes no row. -/
theorem C6_pipeline_idempotent (r : String → String) (f : String → Except Unit (List Table))
    (page : Option Table) (s0 : Store) :
    (runPipeline (pureEnv r f) page (runPipeline (pureEnv r f) page s0).2.1).2.1.shows =
      (runPipeline (pureEnv r f) page s0).2.1.shows ∧
    (runPipeline (pureEnv r f) page (runPipeline (pureEnv r f) page s0).2.1).2.1.songs =
      (runPipeline (pureEnv r f) page s0).2.1.songs ∧
    (runPipeline (pureEnv r f) page (runPipeline (pureEnv r f) page s0).2.1).2.1.assocs =
      (runPipeline (pureEnv r f) page s0).2.1.assocs := by
  have hpipe : ∀ st : Store, runPipeline (pureEnv r f) page st =
      runFrom (pureEnv r f) 0 (load_existing_songs st) st (get_live_history r page) :=
    fun _ => rfl
  simp only [hpipe]
  have hchar1 := runFrom_char r f (get_live_history r page) 0 (load_existing_songs s0) s0
    (INV2_load s0)
  set s1 := (runFrom (pureEnv r f) 0 (load_existing_songs s0) s0
    (get_live_history r page)).2.1 with hs1
  obtain ⟨_, _, _, hsh1, has1, hcov1, hkey1⟩ := hchar1
  have hchar2 := runFrom_char r f (get_live_history r page) 0 (load_existing_songs s1) s1
    (INV2_load s1)
  have hcovload : ∀ e ∈ get_live_history r page, iotaOf s1 (showKey e) ≠ 0 →
      ∀ x ∈ songsOf r f e, (load_existing_songs s1 x.name).isSome := by
    intro e he hnz x hx
    have h := hcov1 e he hnz x hx
    show ((s1.songs x.name).map (·.id)).isSome
    obtain ⟨rr, hrr⟩ := Option.isSome_iff_exists.mp h
    rw [hrr]
    rfl
  have hsat := runFrom_saturated r f (get_live_history r page) 0 (load_existing_songs s1) s1
    hkey1 hcovload
  set s2 := (runFrom (pureEnv r f) 0 (load_existing_songs s1) s1
    (get_live_history r page)).2.1 with hs2
  obtain ⟨_, hsm2, hshm2, hsh2, has2, _, _⟩ := hchar2
  have hsongs2 : s2.songs = s1.songs := hsat.2
  have hicongr : ∀ e ∈ get_live_history r page,
      iotaOf s2 (showKey e) = iotaOf s1 (showKey e) := by
    intro e he
    obtain ⟨rr, hrr⟩ := Option.isSome_iff_exists.mp (hkey1 e he)
    obtain ⟨rr', hrr', hid⟩ := hshm2 (showKey e) rr hrr
    rw [iotaOf_eq hrr', iotaOf_eq hrr, hid]
  refine ⟨?_, hsongs2, ?_⟩
  · rw [hsh2, showWrites_congr (iotaOf s2) (iotaOf s1) (get_live_history r page) hicongr,
      hsh1, applyWrites_idem, ← hsh1]
  · have hρ := load_songs_congr hsongs2
    have hA : assocWrites r f (iotaOf s2) (load_existing_songs s2)
        (get_live_history r page) =
        assocWrites r f (iotaOf s1) (load_existing_songs s1) (get_live_history r page) := by
      rw [hρ]
      exact assocWrites_congr r f (iotaOf s2) (iotaOf s1) (load_existing_songs s1)
        (get_live_history r page) hicongr
    rw [has2, hA, has1, applyWrites_idem, ← has1]

end Crawler
